import Mathlib

/-!
Shallow embedding of the BufferLib sector-buffer library
(src/Buffer.cpp, src/Buffer.h, src/CompareResult.cpp, src/Random32.cpp,
src/Errors.h) and proofs about its specification.

Conventions of the embedding:
* machine bytes are `Nat` values; writes reduce modulo 256, 32-bit words
  modulo 2 ^ 32 (`M32`);
* the payload of a buffer is a function `Nat → Nat`; only indices below
  `GetTotalBytes` are observable through the API;
* C++ functions that `throw` are modelled in `Except Err`; a thrown error
  leaves the buffer unchanged because every C++ throw in the modelled code
  happens before the first mutation;
* `for` loops are modelled by structural recursion on an explicit bound
  (the number of remaining iterations, or a fuel that dominates it);
* fresh heap/stack memory (`new UInt8[]`, the local `genBuffer` array) is
  uninitialized in C++; where its contents can never be observed we model
  it as all zero, and the `genBuffer` scratch array is threaded as an
  explicit arbitrary parameter `gb0`.
-/

namespace ufs

/-- Error taxonomy from src/Errors.h: OutOfRange, InvalidArgument
(alias ArgumentError), Runtime. -/
inductive Err where
  | outOfRange (msg : String)
  | invalidArgument (msg : String)
  | runtime (msg : String)
deriving DecidableEq

/-- src/CompareResult.h: value object reporting the outcome of a buffer
comparison. -/
structure CompareResult where
  areEqual : Bool
  firstDifferenceOffset : Nat
  expectedValue : Nat
  actualValue : Nat
  differenceCount : Nat
deriving DecidableEq

/-- Default constructor `CompareResult()`: buffers are equal. -/
def CompareResult.mkEqual : CompareResult :=
  ⟨true, 0, 0, 0, 0⟩

/-- Constructor `CompareResult(firstDifferenceOffset, expectedValue,
actualValue)`: unequal, difference count 1. -/
def CompareResult.mkUnequal (offset expected actual : Nat) : CompareResult :=
  ⟨false, offset, expected, actual, 1⟩

/-- `CompareResult::AddDifference`: on the first difference record the
triple and mark unequal; afterwards only count. -/
def CompareResult.AddDifference (r : CompareResult) (offset expected actual : Nat) :
    CompareResult :=
  if r.areEqual then ⟨false, offset, expected, actual, 1⟩
  else { r with differenceCount := r.differenceCount + 1 }

/-- The compare results reachable through the public interface: either
constructor followed by any sequence of `AddDifference` calls. -/
inductive CompareResult.Reachable : CompareResult → Prop where
  | equal : CompareResult.Reachable CompareResult.mkEqual
  | unequal (offset expected actual : Nat) :
      CompareResult.Reachable (CompareResult.mkUnequal offset expected actual)
  | add (r : CompareResult) (offset expected actual : Nat) :
      CompareResult.Reachable r →
      CompareResult.Reachable (r.AddDifference offset expected actual)

/-- 2 ^ 32, the modulus of all 32-bit arithmetic. -/
def M32 : Nat := 4294967296

/-- State of `boost::random::taus88` (src/Random32.h uses it as the
generator): three 32-bit linear-feedback-shift components. -/
structure Taus88 where
  s1 : Nat
  s2 : Nat
  s3 : Nat
deriving DecidableEq

/-- One step of `boost::random::linear_feedback_shift_engine<uint32_t,32,k,q,s>`:
b = (((value << q) ^ value) & wordmask) >> (k - s);
value = ((value & (wordmask << (32 - k))) << s) ^ b. -/
def lfsrNext (k q s v : Nat) : Nat :=
  let b := (((v <<< q) ^^^ v) % M32) >>> (k - s)
  let mask := (4294967295 <<< (32 - k)) % M32
  (((v &&& mask) <<< s) % M32) ^^^ b

/-- Seeding one `linear_feedback_shift_engine` component with a 32-bit value:
value = s0 & wordmask; if value < 2 ^ (32 - k) then value += 2 ^ (32 - k).
`wk` is 32 - k. -/
def lfsrSeed (wk s0 : Nat) : Nat :=
  let v := s0 % M32
  if v < 2 ^ wk then v + 2 ^ wk else v

/-- `taus88::seed(value)` (also the seeded constructor): the xor-combine
seeds every component engine with the same 32-bit value. The component
parameters are (k,q,s) = (31,13,12), (29,2,4), (28,3,17). -/
def Taus88.seedAll (s0 : Nat) : Taus88 :=
  ⟨lfsrSeed 1 s0, lfsrSeed 3 s0, lfsrSeed 4 s0⟩

/-- `taus88::operator()`: step all three components and return the xor of
their new values. -/
def Taus88.next (g : Taus88) : Nat × Taus88 :=
  let t1 := lfsrNext 31 13 12 g.s1
  let t2 := lfsrNext 29 2 4 g.s2
  let t3 := lfsrNext 28 3 17 g.s3
  (t1 ^^^ t2 ^^^ t3, ⟨t1, t2, t3⟩)

/-- Iterated generator state after n draws. -/
def Taus88.iterate (g : Taus88) : Nat → Taus88
  | 0 => g
  | n + 1 => (Taus88.iterate g n).next.2

/-- Little-endian byte t of a 32-bit word. -/
def word32Byte (w t : Nat) : Nat :=
  (w >>> (8 * t)) % 256

/-- Byte t of the 12-byte in-memory image of a `taus88` object (three
consecutive little-endian 32-bit words s1, s2, s3), as read by the
`memcpy(genBuffer, &random.GetGen(), 12)` in
`Buffer::FillSectorsWithRandomData`. -/
def Taus88.stateByte (g : Taus88) (t : Nat) : Nat :=
  if t < 4 then word32Byte g.s1 t
  else if t < 8 then word32Byte g.s2 (t - 4)
  else word32Byte g.s3 (t - 8)

/-- src/Random32.h: generator plus the isSeeded flag. -/
structure Random32 where
  generator : Taus88
  isSeeded : Bool
deriving DecidableEq

/-- `Random32::Random32(UInt32 seed)`. -/
def Random32.mkSeeded (seed : Nat) : Random32 :=
  ⟨Taus88.seedAll seed, true⟩

/-- `Random32::Random32()`: wall-clock seeded; the clock reading is an
explicit parameter of the model. isSeeded stays false. -/
def Random32.mkClock (clock : Nat) : Random32 :=
  ⟨Taus88.seedAll clock, false⟩

/-- `Random32::Seed(UInt32)`. -/
def Random32.SeedWith (_r : Random32) (seed : Nat) : Random32 :=
  ⟨Taus88.seedAll seed, true⟩

/-- `Random32::Next()`. -/
def Random32.Next (r : Random32) : Nat × Random32 :=
  let (w, g) := r.generator.next
  (w, { r with generator := g })

/-- src/Buffer.h compression-metadata constants. -/
def COMPRESSION_PATTERN_SIZE_IN_BYTE : Nat := 12

def COMPRESSION_LBA_SIZE_IN_BYTE : Nat := 8

def COMPRESSION_MAX_PATTERN_LEN : Nat := 8

def eFixPattern : Nat := 0

def eIncrementingPattern : Nat := 1

def eDecrementingPattern : Nat := 2

def eRandomPattern : Nat := 3

/-- The buffer (src/Buffer.h). The aligned allocation is not modelled:
`data` is the payload indexed from `_dataStart`. -/
structure Buffer where
  name : String
  bytesPerSector : Nat
  sectorCount : Nat
  random : Option Random32
  usePatternMode : Bool
  data : Nat → Nat

/-- `Buffer::GetTotalBytes`. -/
def Buffer.GetTotalBytes (b : Buffer) : Nat :=
  b.sectorCount * b.bytesPerSector

/-- `Buffer::ValidateSectorRangeAndGetSectorCount` (src/Buffer.h). -/
def Buffer.validateSectorRange (b : Buffer) (startSector sectorCount : Nat) :
    Except Err Nat :=
  let sectorCount := if sectorCount = 0 then b.sectorCount - startSector else sectorCount
  if startSector ≥ b.sectorCount then
    .error (.outOfRange "startSector must be less than SectorCount of buffer.")
  else if startSector + sectorCount > b.sectorCount then
    .error (.outOfRange "startSector plus sectorCount must be less the SectorCount of buffer.")
  else .ok sectorCount

/-- `Buffer::GetStartAndStopBytesFromSectors` (src/Buffer.h). -/
def Buffer.getStartStop (b : Buffer) (startSector sectorCount : Nat) :
    Except Err (Nat × Nat) := do
  let newSectorCount ← b.validateSectorRange startSector sectorCount
  let startByte := startSector * b.bytesPerSector
  let endByte := if newSectorCount = 0 then b.GetTotalBytes
    else (startSector + newSectorCount) * b.bytesPerSector
  pure (startByte, endByte)

/-- `Buffer::ValidateCounterMax`. -/
def validateCounterMax (maxValue : Nat) : Except Err Unit :=
  if maxValue > 9223372036854775807 then
    .error (.outOfRange "Cannot handle 8 Exabytes of data because OMP loop counter must be signed")
  else .ok ()

/-- `::memset(d + start, v, len)` on the payload function. -/
def memsetF (d : Nat → Nat) (start v len : Nat) : Nat → Nat :=
  fun j => if start ≤ j ∧ j < start + len then v % 256 else d j

/-- `::memcpy(d + dst, d + src, len)` for non-overlapping regions (the
source bytes are read before any write). -/
def memcpyF (d : Nat → Nat) (dst src len : Nat) : Nat → Nat :=
  fun j => if dst ≤ j ∧ j < dst + len then d (src + (j - dst)) else d j

/-- Body of one iteration of the loop in `Buffer::FillCompressionInfo`
(src/Buffer.cpp, lines 1073-1103), at absolute byte index `i`
(`i = startByte + 20 + m * bytesPerSector`):
write the type/length byte `(type << 4) | pattenLen` at `i` unless the
zero-page rule applies (`d startByte = 0` and the type is fixed), then for
fixed/incrementing/decrementing copy `pattenLen` bytes from `i - 20`
to `i - 12`. -/
def writeCompressionRecord (typ len startByte : Nat) (d : Nat → Nat) (i : Nat) :
    Nat → Nat :=
  let d1 := if ¬(d startByte = 0 ∧ typ = eFixPattern) then
      fun j => if j = i then ((typ <<< 4) ||| len) % 256 else d j
    else d
  if typ = eFixPattern ∨ typ = eIncrementingPattern ∨ typ = eDecrementingPattern then
    memcpyF d1 (i - COMPRESSION_PATTERN_SIZE_IN_BYTE)
      (i - COMPRESSION_PATTERN_SIZE_IN_BYTE - COMPRESSION_LBA_SIZE_IN_BYTE) len
  else d1

/-- The loop `for (i = startByte + 20; i < endByte; i += S)` of
`Buffer::FillCompressionInfo`. `fuel` bounds the number of iterations;
with `S ≥ 1`, fuel `endByte` always suffices. -/
def fillCompressionInfoLoop (S typ len startByte endByte : Nat) :
    Nat → Nat → (Nat → Nat) → Nat → Nat
  | 0, _, d => d
  | fuel + 1, i, d =>
    if i < endByte then
      fillCompressionInfoLoop S typ len startByte endByte fuel (i + S)
        (writeCompressionRecord typ len startByte d i)
    else d

/-- `Buffer::FillCompressionInfo` (src/Buffer.cpp, lines 1066-1104):
no-op for pattern lengths over 8, otherwise run the per-sector record
loop starting at `startByte + 8 + 12`. -/
def fillCompressionInfo (S typ len startByte endByte : Nat) (d : Nat → Nat) :
    Nat → Nat :=
  if len > COMPRESSION_MAX_PATTERN_LEN then d
  else
    fillCompressionInfoLoop S typ len startByte endByte endByte
      (startByte + COMPRESSION_LBA_SIZE_IN_BYTE + COMPRESSION_PATTERN_SIZE_IN_BYTE) d

/-- `Buffer::Fill(value, startSector, sectorCount)` (src/Buffer.cpp,
lines 1208-1220): memset the range, then in pattern mode write the
fixed-pattern metadata with length 1. -/
def Buffer.Fill (b : Buffer) (value startSector sectorCount : Nat) :
    Except Err Buffer := do
  let (startByte, endByte) ← b.getStartStop startSector sectorCount
  let d := memsetF b.data startByte value (endByte - startByte)
  let d := if b.usePatternMode then
      fillCompressionInfo b.bytesPerSector eFixPattern 1 startByte endByte d
    else d
  pure { b with data := d }

/-- `Buffer::FillZeros`. -/
def Buffer.FillZeros (b : Buffer) (startSector sectorCount : Nat) :
    Except Err Buffer :=
  b.Fill 0 startSector sectorCount

/-- `Buffer::FillOnes`. -/
def Buffer.FillOnes (b : Buffer) (startSector sectorCount : Nat) :
    Except Err Buffer :=
  b.Fill 0xFF startSector sectorCount

/-- The doubling-copy loop of `Buffer::FillPattern` (src/Buffer.cpp,
lines 1894-1907). `fuel` bounds the number of iterations; with
`patternLen ≥ 1`, fuel `endByte - startByte` always suffices because each
iteration advances `startByte` by at least one byte. -/
def fillPatternLoop (patterStart : Nat) :
    Nat → Nat → Nat → Nat → (Nat → Nat) → Nat → Nat
  | 0, _, _, _, d => d
  | fuel + 1, patternLen, startByte, endByte, d =>
    if startByte < endByte then
      let lenToEndByte := endByte - startByte
      let copyLen := min patternLen lenToEndByte
      fillPatternLoop patterStart fuel
        (if patternLen ≥ 4096 then patternLen else patternLen * 2)
        (startByte + copyLen) endByte (memcpyF d startByte patterStart copyLen)
    else d

/-- `Buffer::FillPattern(patterStart, patternLen, startByte, endByte)`. -/
def fillPatternF (d : Nat → Nat) (patterStart patternLen startByte endByte : Nat) :
    Nat → Nat :=
  fillPatternLoop patterStart (endByte - startByte) patternLen startByte endByte d

/-- The first loop of `Buffer::FillIncrementing` writes one sector of the
8-bit wrapping sequence `startingValue, startingValue + 1, …` at
`startByte`. -/
def incrementingWrite (d : Nat → Nat) (startByte S value : Nat) : Nat → Nat :=
  fun j => if startByte ≤ j ∧ j < startByte + S then (value + (j - startByte)) % 256 else d j

/-- `Buffer::FillIncrementing(startingValue, startSector, sectorCount)`
(src/Buffer.cpp, lines 1509-1531). -/
def Buffer.FillIncrementing (b : Buffer) (startingValue startSector sectorCount : Nat) :
    Except Err Buffer := do
  let (startByte, endByte) ← b.getStartStop startSector sectorCount
  let d := incrementingWrite b.data startByte b.bytesPerSector startingValue
  let d := if endByte > startByte + b.bytesPerSector then
      fillPatternF d startByte b.bytesPerSector (startByte + b.bytesPerSector) endByte
    else d
  let d := if b.usePatternMode then
      fillCompressionInfo b.bytesPerSector eIncrementingPattern 1 startByte endByte d
    else d
  pure { b with data := d }

/-- The first loop of `Buffer::FillDecrementing`. -/
def decrementingWrite (d : Nat → Nat) (startByte S value : Nat) : Nat → Nat :=
  fun j => if startByte ≤ j ∧ j < startByte + S then
    (value + 256 * S - (j - startByte)) % 256 else d j

/-- `Buffer::FillDecrementing(startingValue, startSector, sectorCount)`
(src/Buffer.cpp, lines 1584-1606). -/
def Buffer.FillDecrementing (b : Buffer) (startingValue startSector sectorCount : Nat) :
    Except Err Buffer := do
  let (startByte, endByte) ← b.getStartStop startSector sectorCount
  let d := decrementingWrite b.data startByte b.bytesPerSector startingValue
  let d := if endByte > startByte + b.bytesPerSector then
      fillPatternF d startByte b.bytesPerSector (startByte + b.bytesPerSector) endByte
    else d
  let d := if b.usePatternMode then
      fillCompressionInfo b.bytesPerSector eDecrementingPattern 1 startByte endByte d
    else d
  pure { b with data := d }

/-- The first loop of `Buffer::FillBytes` writes the pattern bytes once,
truncated at `stop = min (startByte + list.length) endByte`. -/
def patternWrite (d : Nat → Nat) (startByte : Nat) (list : List Nat) (stop : Nat) :
    Nat → Nat :=
  fun j => if startByte ≤ j ∧ j < stop then
    (list.getD ((j - startByte) % list.length) 0) % 256 else d j

/-- `Buffer::FillBytes(list, startSector, sectorCount)` (src/Buffer.cpp,
lines 1427-1457): ignore empty patterns; write the pattern once, amplify
with the doubling copier, then in pattern mode write fixed-pattern
metadata with the (byte-truncated) pattern length. -/
def Buffer.FillBytes (b : Buffer) (list : List Nat) (startSector sectorCount : Nat) :
    Except Err Buffer := do
  let byteCount := list.length
  if byteCount ≠ 0 then do
    let (startByte, endByte) ← b.getStartStop startSector sectorCount
    let patternEnd := startByte + byteCount
    let d := patternWrite b.data startByte list (min patternEnd endByte)
    let d := if endByte > patternEnd then
        fillPatternF d startByte byteCount patternEnd endByte
      else d
    let d := if b.usePatternMode then
        fillCompressionInfo b.bytesPerSector eFixPattern (byteCount % 256) startByte endByte d
      else d
    pure { b with data := d }
  else
    pure b

/-- Write the 32-bit word `w` little-endian at word index `i`
(`int32Ptr[i] = w`). -/
def writeWordLE (d : Nat → Nat) (i w : Nat) : Nat → Nat :=
  fun j => if 4 * i ≤ j ∧ j < 4 * i + 4 then word32Byte w (j - 4 * i) else d j

/-- `memcpy(&int32Ptr[i - 4], genBuffer, 12)`: write the 12 saved
generator-state bytes at byte offset `4 * (i - 4)`. -/
def writeGenBuffer (d : Nat → Nat) (startDst : Nat) (gb : Nat → Nat) : Nat → Nat :=
  fun j => if startDst ≤ j ∧ j < startDst + 12 then gb (j - startDst) else d j

/-- The word loop of `Buffer::FillSectorsWithRandomData` (src/Buffer.cpp,
lines 1793-1816), `for (i = startByte/4; i < endByte/4; i++)`, recursing
on the number of remaining words. In pattern mode, at word offset 0 of
each sector the generator state is snapshotted into `genBuffer`, at word
offset 6 the snapshot is copied into the sector at byte offset 8; every
word is then overwritten with the next 32-bit draw. -/
def fillRandomWordsLoop (mode : Bool) (S : Nat) :
    Nat → Nat → Taus88 → (Nat → Nat) → (Nat → Nat) →
      (Nat → Nat) × Taus88 × (Nat → Nat)
  | 0, _, g, gb, d => (d, g, gb)
  | rem + 1, i, g, gb, d =>
    let sectorByteIndex := i % (S / 4)
    let gb' := if mode ∧ sectorByteIndex = 0 then g.stateByte else gb
    let d' := if mode ∧ ¬sectorByteIndex = 0 ∧ sectorByteIndex = 6 then
        writeGenBuffer d (4 * (i - 4)) gb
      else d
    fillRandomWordsLoop mode S rem (i + 1) g.next.2 gb' (writeWordLE d' i g.next.1)

/-- `Buffer::FillSectorsWithRandomData(random, startSector, sectorCount)`
(src/Buffer.cpp, lines 1781-1822). `gb0` is the arbitrary initial content
of the uninitialized stack array `genBuffer`. Returns the filled buffer
(its own `random` slot untouched) and the advanced generator. -/
def Buffer.FillSectorsWithRandomData (b : Buffer) (random : Random32)
    (startSector sectorCount : Nat) (gb0 : Nat → Nat) :
    Except Err (Buffer × Random32) := do
  let (startByte, endByte) ← b.getStartStop startSector sectorCount
  let (d, g', _gbFinal) := fillRandomWordsLoop b.usePatternMode b.bytesPerSector
    (endByte / 4 - startByte / 4) (startByte / 4) random.generator gb0 b.data
  let d := if b.usePatternMode then
      fillCompressionInfo b.bytesPerSector eRandomPattern 0 startByte endByte d
    else d
  pure ({ b with data := d }, { random with generator := g' })

/-- `Buffer::GetRandom(useSeed, seed)` (src/Buffer.h): lazily create the
PRNG slot (clock-seeded when `useSeed` is false, `clock` being the
wall-clock reading), reseed to `seed` when `useSeed`, reseed to 0 when
the existing PRNG was seeded by a caller. Returns the updated buffer and
the PRNG the fill will use (aliasing the slot). -/
def Buffer.GetRandom (b : Buffer) (useSeed : Bool) (seed clock : Nat) :
    Buffer × Random32 :=
  match b.random with
  | none =>
    let r := if useSeed then Random32.mkSeeded seed else Random32.mkClock clock
    ({ b with random := some r }, r)
  | some r =>
    if useSeed then
      let r' := r.SeedWith seed
      ({ b with random := some r' }, r')
    else if r.isSeeded then
      let r' := r.SeedWith 0
      ({ b with random := some r' }, r')
    else ({ b with random := some r }, r)

/-- `Buffer::FillRandomImpl(startSector, sectorCount, useSeed, seed)`
(src/Buffer.cpp, lines 1769-1779): reject sector sizes that are not a
multiple of 4 with a Runtime error before touching anything; otherwise
fill through the buffer's own PRNG slot (which advances). -/
def Buffer.FillRandomImpl (b : Buffer) (startSector sectorCount : Nat)
    (useSeed : Bool) (seed clock : Nat) (gb0 : Nat → Nat) : Except Err Buffer := do
  if b.bytesPerSector % 4 ≠ 0 then
    throw (.runtime "Filling random data is not supported for sector sizes that are not a multiple of 4.")
  else do
    let (b1, r) := b.GetRandom useSeed seed clock
    let (b2, r') ← b1.FillSectorsWithRandomData r startSector sectorCount gb0
    pure { b2 with random := some r' }

/-- `Buffer::FillRandom(startSector, sectorCount)`. -/
def Buffer.FillRandom (b : Buffer) (startSector sectorCount clock : Nat)
    (gb0 : Nat → Nat) : Except Err Buffer :=
  b.FillRandomImpl startSector sectorCount false 0 clock gb0

/-- `Buffer::FillRandomSeeded(seed, startSector, sectorCount)`. -/
def Buffer.FillRandomSeeded (b : Buffer) (seed startSector sectorCount : Nat)
    (gb0 : Nat → Nat) : Except Err Buffer :=
  b.FillRandomImpl startSector sectorCount true seed 0 gb0

/-- The per-sector loop of `Buffer::FillRandomSeededBySector`: the local
generator copy is reseeded to `seed + i - startSector` for sector `i` and
that one sector is filled. The buffer's own PRNG slot is not advanced. -/
def Buffer.fillBySectorLoop (b : Buffer) (r : Random32) (seed startSector : Nat)
    (gb0 : Nat → Nat) : Nat → Nat → Except Err Buffer
  | _, 0 => pure b
  | i, c + 1 => do
    let r := r.SeedWith ((seed + i - startSector) % M32)
    let (b', r') ← b.FillSectorsWithRandomData r i 1 gb0
    Buffer.fillBySectorLoop b' r' seed startSector gb0 (i + 1) c

/-- `Buffer::FillRandomSeededBySector(seed, startSector, sectorCount)`
(src/Buffer.cpp, lines 1741-1767). -/
def Buffer.FillRandomSeededBySector (b : Buffer) (seed startSector sectorCount clock : Nat)
    (gb0 : Nat → Nat) : Except Err Buffer := do
  if b.bytesPerSector % 4 ≠ 0 then
    throw (.runtime "Filling random data is not supported for sector sizes that are not a mupltiple of 4.")
  else do
    let sectorCount ← b.validateSectorRange startSector sectorCount
    validateCounterMax (startSector + sectorCount)
    let (b1, r) := b.GetRandom true seed clock
    validateCounterMax (startSector + sectorCount)
    b1.fillBySectorLoop r seed startSector gb0 startSector sectorCount

/-- The first-mismatch scan of `Buffer::CompareTo`: index of the first of
`remaining` positions where the byte spans disagree, counting from `i`. -/
def findFirstDiffAux (d1 d2 : Nat → Nat) (s1 s2 : Nat) :
    Nat → Nat → Option Nat
  | _, 0 => none
  | i, rem + 1 =>
    if d1 (s1 + i) ≠ d2 (s2 + i) then some i
    else findFirstDiffAux d1 d2 s1 s2 (i + 1) rem

/-- `memcmp` plus the first-difference scan: first index `i < n` with
`d1 (s1 + i) ≠ d2 (s2 + i)`. -/
def findFirstDiff (d1 d2 : Nat → Nat) (s1 s2 n : Nat) : Option Nat :=
  findFirstDiffAux d1 d2 s1 s2 0 n

/-- `Buffer::CompareTo(buffer, startSector, startSector2, sectorCount)`
(src/Buffer.cpp, lines 507-566). -/
def Buffer.CompareTo (b : Buffer) (buffer : Buffer)
    (startSector startSector2 sectorCount : Nat) : Except Err CompareResult := do
  let (startByte, _endByte) ← b.getStartStop startSector sectorCount
  let (startByte2, endByte2) ← buffer.getStartStop startSector2 sectorCount
  let bytesToCompare := _endByte - startByte
  let bytesToCompare ←
    if sectorCount = 0 then
      pure (min bytesToCompare (endByte2 - startByte2))
    else if endByte2 - startByte2 ≠ bytesToCompare then
      throw (.invalidArgument "Unexpected error. Calculated byte counts to compare for the two buffers does not match.")
    else pure bytesToCompare
  match findFirstDiff b.data buffer.data startByte startByte2 bytesToCompare with
  | none => pure CompareResult.mkEqual
  | some i =>
    pure (CompareResult.mkUnequal (startByte + i) (b.data (startByte + i))
      (buffer.data (startByte2 + i)))

/-- The pattern-mode flag computed from the environment variable, as in
`Buffer::Initialize`: absent means off, otherwise on exactly when the
parsed integer is nonzero. -/
def envPatternMode (env : Option Int) : Bool :=
  match env with
  | none => false
  | some v => v ≠ 0

/-- `Buffer::Initialize(sectorCount, bytesPerSector)` (src/Buffer.cpp,
lines 198-238): read `DMX_SIMULATOR_ENABLED` (modelled as its parsed
integer value, `none` when absent), reject non-positive sizes, then
zero-fill the fresh payload through `Fill(0, 0, sectorCount)`. -/
def Buffer.Initialize (env : Option Int) (sectorCount bytesPerSector : Nat) :
    Except Err Buffer := do
  let usePatternMode := envPatternMode env
  if sectorCount < 1 then
    throw (.invalidArgument "sectorCount must be greater than zero.")
  else if bytesPerSector < 1 then
    throw (.invalidArgument "bytesPerSector must be greater than zero.")
  else
    Buffer.Fill
      { name := "", bytesPerSector := bytesPerSector, sectorCount := sectorCount,
        random := none, usePatternMode := usePatternMode, data := fun _ => 0 }
      0 0 sectorCount

/-- `Buffer::Resize(sectorCount, bytesPerSector)` (src/Buffer.cpp, lines
1964-1992): save `min(oldTotal, newTotal)` leading bytes, release the
PRNG, re-run `Initialize` (which re-reads the environment and zero-fills),
then restore the saved prefix. -/
def Buffer.Resize (b : Buffer) (env : Option Int) (sectorCount bytesPerSector : Nat) :
    Except Err Buffer := do
  let bytesToPreserve := min b.GetTotalBytes (sectorCount * bytesPerSector)
  let b' ← Buffer.Initialize env sectorCount bytesPerSector
  pure { b' with data := fun j => if j < bytesToPreserve then b.data j else b'.data j }

/-- The copy constructor `Buffer::Buffer(const Buffer&)` (src/Buffer.cpp,
lines 131-153): duplicates the scalar fields and the pattern flag, clones
the PRNG if present, copies `GetTotalBytes()` payload bytes. The `_name`
member is never assigned, so it stays default-constructed empty. -/
def Buffer.copy (buffer : Buffer) : Buffer :=
  { name := ""
    bytesPerSector := buffer.bytesPerSector
    sectorCount := buffer.sectorCount
    random := buffer.random
    usePatternMode := buffer.usePatternMode
    data := fun j => if j < buffer.GetTotalBytes then buffer.data j else 0 }

/-- `Buffer::SetName`. -/
def Buffer.SetName (b : Buffer) (name : String) : Buffer :=
  { b with name := name }

/-- `Buffer::SetByte(index, value)`. -/
def Buffer.SetByte (b : Buffer) (index value : Nat) : Except Err Buffer :=
  if index ≥ b.GetTotalBytes then
    .error (.outOfRange "Index is greater than or equal to TotalBytes.")
  else
    .ok { b with data := fun j => if j = index then value % 256 else b.data j }

/-- A fresh zero-filled buffer of the given shape, used to instantiate
theorems at concrete inputs. -/
def mkBuf (sc bps : Nat) (mode : Bool) : Buffer :=
  { name := "", bytesPerSector := bps, sectorCount := sc, random := none,
    usePatternMode := mode, data := fun _ => 0 }

/- ---------------------------------------------------------------- -/
/- General-purpose lemmas about the embedding.                       -/
/- ---------------------------------------------------------------- -/

theorem bind_ok_elim {α β : Type} {x : Except Err α} {a : α}
    (h : x = Except.ok a) (f : α → Except Err β) : (x >>= f) = f a := by
  subst h; rfl

theorem pure_eq_ok {α : Type} (a : α) : (pure a : Except Err α) = Except.ok a := rfl

theorem memsetF_in {d : Nat → Nat} {start v len j : Nat}
    (h1 : start ≤ j) (h2 : j < start + len) : memsetF d start v len j = v % 256 := by
  simp [memsetF, h1, h2]

theorem memsetF_out {d : Nat → Nat} {start v len j : Nat}
    (h : ¬(start ≤ j ∧ j < start + len)) : memsetF d start v len j = d j := by
  simp only [memsetF, if_neg h]

theorem memcpyF_in {d : Nat → Nat} {dst src len j : Nat}
    (h1 : dst ≤ j) (h2 : j < dst + len) : memcpyF d dst src len j = d (src + (j - dst)) := by
  simp [memcpyF, h1, h2]

theorem memcpyF_out {d : Nat → Nat} {dst src len j : Nat}
    (h : ¬(dst ≤ j ∧ j < dst + len)) : memcpyF d dst src len j = d j := by
  simp only [memcpyF, if_neg h]

theorem bind_error_elim {α β : Type} {x : Except Err α} {e : Err}
    (h : x = Except.error e) (f : α → Except Err β) : (x >>= f) = Except.error e := by
  subst h; rfl

theorem Fill_ok_shape (b : Buffer) (v ss cnt : Nat) (b' : Buffer)
    (h : b.Fill v ss cnt = Except.ok b') :
    b'.name = b.name ∧ b'.bytesPerSector = b.bytesPerSector ∧
    b'.sectorCount = b.sectorCount ∧ b'.random = b.random ∧
    b'.usePatternMode = b.usePatternMode := by
  unfold Buffer.Fill at h
  cases hgs : b.getStartStop ss cnt with
  | error e => rw [bind_error_elim hgs] at h; exact Except.noConfusion h
  | ok p =>
    obtain ⟨sB, eB⟩ := p
    rw [bind_ok_elim hgs] at h
    have hb := Except.ok.inj h
    rw [← hb]
    exact ⟨rfl, rfl, rfl, rfl, rfl⟩

theorem FillIncrementing_ok_shape (b : Buffer) (v ss cnt : Nat) (b' : Buffer)
    (h : b.FillIncrementing v ss cnt = Except.ok b') :
    b'.name = b.name ∧ b'.bytesPerSector = b.bytesPerSector ∧
    b'.sectorCount = b.sectorCount ∧ b'.random = b.random ∧
    b'.usePatternMode = b.usePatternMode := by
  unfold Buffer.FillIncrementing at h
  cases hgs : b.getStartStop ss cnt with
  | error e => rw [bind_error_elim hgs] at h; exact Except.noConfusion h
  | ok p =>
    obtain ⟨sB, eB⟩ := p
    rw [bind_ok_elim hgs] at h
    have hb := Except.ok.inj h
    rw [← hb]
    exact ⟨rfl, rfl, rfl, rfl, rfl⟩

theorem FillDecrementing_ok_shape (b : Buffer) (v ss cnt : Nat) (b' : Buffer)
    (h : b.FillDecrementing v ss cnt = Except.ok b') :
    b'.name = b.name ∧ b'.bytesPerSector = b.bytesPerSector ∧
    b'.sectorCount = b.sectorCount ∧ b'.random = b.random ∧
    b'.usePatternMode = b.usePatternMode := by
  unfold Buffer.FillDecrementing at h
  cases hgs : b.getStartStop ss cnt with
  | error e => rw [bind_error_elim hgs] at h; exact Except.noConfusion h
  | ok p =>
    obtain ⟨sB, eB⟩ := p
    rw [bind_ok_elim hgs] at h
    have hb := Except.ok.inj h
    rw [← hb]
    exact ⟨rfl, rfl, rfl, rfl, rfl⟩

theorem FillBytes_ok_shape (b : Buffer) (l : List Nat) (ss cnt : Nat) (b' : Buffer)
    (h : b.FillBytes l ss cnt = Except.ok b') :
    b'.name = b.name ∧ b'.bytesPerSector = b.bytesPerSector ∧
    b'.sectorCount = b.sectorCount ∧ b'.random = b.random ∧
    b'.usePatternMode = b.usePatternMode := by
  unfold Buffer.FillBytes at h
  by_cases hl : l.length ≠ 0
  · rw [if_pos hl] at h
    cases hgs : b.getStartStop ss cnt with
    | error e => rw [bind_error_elim hgs] at h; exact Except.noConfusion h
    | ok p =>
      obtain ⟨sB, eB⟩ := p
      rw [bind_ok_elim hgs] at h
      have hb := Except.ok.inj h
      rw [← hb]
      exact ⟨rfl, rfl, rfl, rfl, rfl⟩
  · rw [if_neg hl] at h
    have hb := Except.ok.inj h
    rw [← hb]
    exact ⟨rfl, rfl, rfl, rfl, rfl⟩

theorem FillSectors_ok_shape (b : Buffer) (r : Random32) (ss cnt : Nat)
    (gb0 : Nat → Nat) (b' : Buffer) (r' : Random32)
    (h : b.FillSectorsWithRandomData r ss cnt gb0 = Except.ok (b', r')) :
    b'.name = b.name ∧ b'.bytesPerSector = b.bytesPerSector ∧
    b'.sectorCount = b.sectorCount ∧ b'.random = b.random ∧
    b'.usePatternMode = b.usePatternMode := by
  unfold Buffer.FillSectorsWithRandomData at h
  cases hgs : b.getStartStop ss cnt with
  | error e => rw [bind_error_elim hgs] at h; exact Except.noConfusion h
  | ok p =>
    obtain ⟨sB, eB⟩ := p
    rw [bind_ok_elim hgs] at h
    have hb := Except.ok.inj h
    injection hb with hb1 hb2
    rw [← hb1]
    exact ⟨rfl, rfl, rfl, rfl, rfl⟩

theorem GetRandom_shape (b : Buffer) (us : Bool) (seed clock : Nat) :
    ∃ r0, b.GetRandom us seed clock = ({ b with random := some r0 }, r0) := by
  unfold Buffer.GetRandom
  cases hr : b.random with
  | none => cases us <;> exact ⟨_, rfl⟩
  | some r0 =>
    cases us with
    | true => exact ⟨_, rfl⟩
    | false =>
      cases hse : r0.isSeeded with
      | true => simp only [hse]; exact ⟨_, rfl⟩
      | false => simp only [hse]; exact ⟨_, rfl⟩

theorem FillRandomImpl_ok_shape (b : Buffer) (ss cnt : Nat) (us : Bool)
    (seed clock : Nat) (gb0 : Nat → Nat) (b' : Buffer)
    (h : b.FillRandomImpl ss cnt us seed clock gb0 = Except.ok b') :
    b'.name = b.name ∧ b'.bytesPerSector = b.bytesPerSector ∧
    b'.sectorCount = b.sectorCount ∧ b'.usePatternMode = b.usePatternMode := by
  unfold Buffer.FillRandomImpl at h
  by_cases hm : b.bytesPerSector % 4 ≠ 0
  · rw [if_pos hm] at h; exact Except.noConfusion h
  · rw [if_neg hm] at h
    obtain ⟨r0, hgr⟩ := GetRandom_shape b us seed clock
    rw [hgr] at h
    dsimp only at h
    cases hfs : Buffer.FillSectorsWithRandomData { b with random := some r0 } r0 ss cnt gb0 with
    | error e => rw [bind_error_elim hfs] at h; exact Except.noConfusion h
    | ok p =>
      obtain ⟨b2, r'⟩ := p
      rw [bind_ok_elim hfs] at h
      dsimp only at h
      have hb := Except.ok.inj h
      have hshape := FillSectors_ok_shape _ r0 ss cnt gb0 b2 r' hfs
      rw [← hb]
      exact ⟨hshape.1, hshape.2.1, hshape.2.2.1, hshape.2.2.2.2⟩

theorem fillBySectorLoop_ok_shape (seed startSector : Nat) (gb0 : Nat → Nat) :
    ∀ (c : Nat) (b : Buffer) (r : Random32) (i : Nat) (b' : Buffer),
    b.fillBySectorLoop r seed startSector gb0 i c = Except.ok b' →
    b'.name = b.name ∧ b'.bytesPerSector = b.bytesPerSector ∧
    b'.sectorCount = b.sectorCount ∧ b'.random = b.random ∧
    b'.usePatternMode = b.usePatternMode := by
  intro c
  induction c with
  | zero =>
    intro b r i b' h
    have hb := Except.ok.inj h
    rw [← hb]
    exact ⟨rfl, rfl, rfl, rfl, rfl⟩
  | succ c ih =>
    intro b r i b' h
    unfold Buffer.fillBySectorLoop at h
    cases hfs : b.FillSectorsWithRandomData
        (r.SeedWith ((seed + i - startSector) % M32)) i 1 gb0 with
    | error e => rw [bind_error_elim hfs] at h; exact Except.noConfusion h
    | ok p =>
      obtain ⟨b2, r'⟩ := p
      rw [bind_ok_elim hfs] at h
      dsimp only at h
      have hshape := FillSectors_ok_shape _ _ i 1 gb0 b2 r' hfs
      have hrec := ih b2 r' (i + 1) b' h
      exact ⟨hrec.1.trans hshape.1, hrec.2.1.trans hshape.2.1,
        hrec.2.2.1.trans hshape.2.2.1, hrec.2.2.2.1.trans hshape.2.2.2.1,
        hrec.2.2.2.2.trans hshape.2.2.2.2⟩

theorem FillRandomSeededBySector_ok_shape (b : Buffer) (seed ss cnt clock : Nat)
    (gb0 : Nat → Nat) (b' : Buffer)
    (h : b.FillRandomSeededBySector seed ss cnt clock gb0 = Except.ok b') :
    b'.name = b.name ∧ b'.bytesPerSector = b.bytesPerSector ∧
    b'.sectorCount = b.sectorCount ∧ b'.usePatternMode = b.usePatternMode := by
  unfold Buffer.FillRandomSeededBySector at h
  by_cases hm : b.bytesPerSector % 4 ≠ 0
  · rw [if_pos hm] at h; exact Except.noConfusion h
  · rw [if_neg hm] at h
    cases hv : b.validateSectorRange ss cnt with
    | error e => rw [bind_error_elim hv] at h; exact Except.noConfusion h
    | ok cnt' =>
      rw [bind_ok_elim hv] at h
      dsimp only at h
      cases hc : validateCounterMax (ss + cnt') with
      | error e => rw [bind_error_elim hc] at h; exact Except.noConfusion h
      | ok u =>
        rw [bind_ok_elim hc] at h
        obtain ⟨r0, hgr⟩ := GetRandom_shape b true seed clock
        rw [hgr] at h
        dsimp only at h
        rw [bind_ok_elim hc] at h
        have := fillBySectorLoop_ok_shape seed ss gb0 cnt' _ r0 ss b' h
        exact ⟨this.1, this.2.1, this.2.2.1, this.2.2.2.2⟩

/- ---------------------------------------------------------------- -/
/- Claim C10.                                                        -/
/- ---------------------------------------------------------------- -/

/-- C10: every reachable CompareResult satisfies: areEqual holds iff
differenceCount = 0; and once unequal, each further AddDifference call
leaves the first-difference triple unchanged and increments
differenceCount by exactly one. -/
theorem C10_compareResult_invariant (r : CompareResult) (h : r.Reachable) :
    (r.areEqual = true ↔ r.differenceCount = 0) ∧
    (r.areEqual = false → ∀ o e a,
      (r.AddDifference o e a).areEqual = false ∧
      (r.AddDifference o e a).firstDifferenceOffset = r.firstDifferenceOffset ∧
      (r.AddDifference o e a).expectedValue = r.expectedValue ∧
      (r.AddDifference o e a).actualValue = r.actualValue ∧
      (r.AddDifference o e a).differenceCount = r.differenceCount + 1) := by
  constructor
  · induction h with
    | equal => simp [CompareResult.mkEqual]
    | unequal o e a => simp [CompareResult.mkUnequal]
    | add r o e a hr ih =>
      by_cases hq : r.areEqual = true
      · simp [CompareResult.AddDifference, hq]
      · simp [CompareResult.AddDifference, hq]
  · intro hne o e a
    simp [CompareResult.AddDifference, hne]

/-- Witness for C10 at the concrete reachable result
`mkUnequal 5 1 2`. -/
theorem C10_witness :
    ((CompareResult.mkUnequal 5 1 2).areEqual = true ↔
      (CompareResult.mkUnequal 5 1 2).differenceCount = 0) ∧
    ((CompareResult.mkUnequal 5 1 2).areEqual = false → ∀ o e a,
      ((CompareResult.mkUnequal 5 1 2).AddDifference o e a).areEqual = false ∧
      ((CompareResult.mkUnequal 5 1 2).AddDifference o e a).firstDifferenceOffset =
        (CompareResult.mkUnequal 5 1 2).firstDifferenceOffset ∧
      ((CompareResult.mkUnequal 5 1 2).AddDifference o e a).expectedValue =
        (CompareResult.mkUnequal 5 1 2).expectedValue ∧
      ((CompareResult.mkUnequal 5 1 2).AddDifference o e a).actualValue =
        (CompareResult.mkUnequal 5 1 2).actualValue ∧
      ((CompareResult.mkUnequal 5 1 2).AddDifference o e a).differenceCount =
        (CompareResult.mkUnequal 5 1 2).differenceCount + 1) :=
  C10_compareResult_invariant (CompareResult.mkUnequal 5 1 2)
    (CompareResult.Reachable.unequal 5 1 2)

/- ---------------------------------------------------------------- -/
/- Claim C8.                                                         -/
/- ---------------------------------------------------------------- -/

/-- C8 counterexample: the copy constructor does not duplicate the name.
For a buffer named "x" the copy's name is empty, not "x". -/
theorem C8_counterexample :
    ((mkBuf 1 8 false).SetName "x").name = "x" ∧
    (Buffer.copy ((mkBuf 1 8 false).SetName "x")).name ≠
      ((mkBuf 1 8 false).SetName "x").name := by
  exact ⟨rfl, by decide⟩

/-- C8 amended: copy construction duplicates the payload bytes, the PRNG
slot, the scalar fields and the pattern-mode flag, but the copy's name is
always the empty string (the C++ copy constructor never assigns _name). -/
theorem C8_copy_amended (b : Buffer) :
    (∀ j, j < b.GetTotalBytes → (Buffer.copy b).data j = b.data j) ∧
    (Buffer.copy b).random = b.random ∧
    (Buffer.copy b).sectorCount = b.sectorCount ∧
    (Buffer.copy b).bytesPerSector = b.bytesPerSector ∧
    (Buffer.copy b).usePatternMode = b.usePatternMode ∧
    (Buffer.copy b).name = "" := by
  refine ⟨fun j hj => ?_, rfl, rfl, rfl, rfl, rfl⟩
  simp [Buffer.copy, hj]

/-- Witness for C8 at a concrete buffer and payload index. -/
theorem C8_witness :
    (0 : Nat) < (mkBuf 1 8 false).GetTotalBytes ∧
    (Buffer.copy (mkBuf 1 8 false)).data 0 = (mkBuf 1 8 false).data 0 ∧
    (Buffer.copy (mkBuf 1 8 false)).name = "" :=
  ⟨by decide, (C8_copy_amended (mkBuf 1 8 false)).1 0 (by decide),
    (C8_copy_amended (mkBuf 1 8 false)).2.2.2.2.2⟩

/- ---------------------------------------------------------------- -/
/- Claim C9.                                                         -/
/- ---------------------------------------------------------------- -/

/-- C9 counterexample: resize re-reads the environment. A buffer built
with DMX_SIMULATOR_ENABLED = 1 has the pattern flag set; resizing the
same buffer while the variable reads 0 clears the flag. -/
theorem C9_counterexample :
    ((Buffer.Initialize (some 1) 1 8).bind fun b =>
      (b.Resize (some 0) 1 8).map fun b' => (b.usePatternMode, b'.usePatternMode))
      = Except.ok (true, false) := by
  rfl

theorem Initialize_ok_shape (env : Option Int) (sc bps : Nat) (b : Buffer)
    (h : Buffer.Initialize env sc bps = Except.ok b) :
    b.name = "" ∧ b.bytesPerSector = bps ∧ b.sectorCount = sc ∧ b.random = none ∧
    b.usePatternMode = envPatternMode env := by
  unfold Buffer.Initialize at h
  by_cases h1 : sc < 1
  · rw [if_pos h1] at h; exact Except.noConfusion h
  · rw [if_neg h1] at h
    by_cases h2 : bps < 1
    · rw [if_pos h2] at h; exact Except.noConfusion h
    · rw [if_neg h2] at h
      have hs := Fill_ok_shape _ 0 0 sc b h
      exact ⟨hs.1, hs.2.1, hs.2.2.1, hs.2.2.2.1, hs.2.2.2.2⟩

theorem Resize_ok_shape (b : Buffer) (env : Option Int) (sc bps : Nat) (b' : Buffer)
    (h : b.Resize env sc bps = Except.ok b') :
    b'.name = "" ∧ b'.bytesPerSector = bps ∧ b'.sectorCount = sc ∧ b'.random = none ∧
    b'.usePatternMode = envPatternMode env := by
  unfold Buffer.Resize at h
  dsimp only at h
  cases hini : Buffer.Initialize env sc bps with
  | error e => rw [bind_error_elim hini] at h; exact Except.noConfusion h
  | ok binit =>
    rw [bind_ok_elim hini] at h
    have hb := Except.ok.inj h
    have hs := Initialize_ok_shape env sc bps binit hini
    rw [← hb]
    exact ⟨hs.1, hs.2.1, hs.2.2.1, hs.2.2.2.1, hs.2.2.2.2⟩

/-- C9 amended: the pattern-mode flag is determined by the environment
variable as read at construction AND at each resize (Resize re-runs
Initialize, which re-reads the variable); all other modelled operations
(fills, SetByte, copy construction) leave the flag unchanged. -/
theorem C9_patternMode_amended :
    (∀ env sc bps b, Buffer.Initialize env sc bps = Except.ok b →
      b.usePatternMode = envPatternMode env) ∧
    (∀ (b : Buffer) env sc bps b', b.Resize env sc bps = Except.ok b' →
      b'.usePatternMode = envPatternMode env) ∧
    (∀ (b : Buffer) v ss cnt b', b.Fill v ss cnt = Except.ok b' →
      b'.usePatternMode = b.usePatternMode) ∧
    (∀ (b : Buffer) v ss cnt b', b.FillIncrementing v ss cnt = Except.ok b' →
      b'.usePatternMode = b.usePatternMode) ∧
    (∀ (b : Buffer) v ss cnt b', b.FillDecrementing v ss cnt = Except.ok b' →
      b'.usePatternMode = b.usePatternMode) ∧
    (∀ (b : Buffer) l ss cnt b', b.FillBytes l ss cnt = Except.ok b' →
      b'.usePatternMode = b.usePatternMode) ∧
    (∀ (b : Buffer) ss cnt us seed clock gb0 b',
      b.FillRandomImpl ss cnt us seed clock gb0 = Except.ok b' →
      b'.usePatternMode = b.usePatternMode) ∧
    (∀ (b : Buffer) seed ss cnt clock gb0 b',
      b.FillRandomSeededBySector seed ss cnt clock gb0 = Except.ok b' →
      b'.usePatternMode = b.usePatternMode) ∧
    (∀ (b : Buffer) i v b', b.SetByte i v = Except.ok b' →
      b'.usePatternMode = b.usePatternMode) ∧
    (∀ b : Buffer, (Buffer.copy b).usePatternMode = b.usePatternMode) := by
  refine ⟨?_, ?_, ?_, ?_, ?_, ?_, ?_, ?_, ?_, ?_⟩
  · intro env sc bps b h
    exact (Initialize_ok_shape env sc bps b h).2.2.2.2
  · intro b env sc bps b' h
    exact (Resize_ok_shape b env sc bps b' h).2.2.2.2
  · intro b v ss cnt b' h
    exact (Fill_ok_shape b v ss cnt b' h).2.2.2.2
  · intro b v ss cnt b' h
    exact (FillIncrementing_ok_shape b v ss cnt b' h).2.2.2.2
  · intro b v ss cnt b' h
    exact (FillDecrementing_ok_shape b v ss cnt b' h).2.2.2.2
  · intro b l ss cnt b' h
    exact (FillBytes_ok_shape b l ss cnt b' h).2.2.2.2
  · intro b ss cnt us seed clock gb0 b' h
    exact (FillRandomImpl_ok_shape b ss cnt us seed clock gb0 b' h).2.2.2
  · intro b seed ss cnt clock gb0 b' h
    exact (FillRandomSeededBySector_ok_shape b seed ss cnt clock gb0 b' h).2.2.2
  · intro b i v b' h
    unfold Buffer.SetByte at h
    by_cases hi : i ≥ b.GetTotalBytes
    · rw [if_pos hi] at h; exact Except.noConfusion h
    · rw [if_neg hi] at h
      have hb := Except.ok.inj h
      rw [← hb]
  · intro b
    rfl

/-- Witness for C9 amended at concrete inputs. -/
theorem C9_witness :
    (Buffer.Initialize (some 1) 2 8).map (fun b => b.usePatternMode)
      = Except.ok true := by
  cases hini : Buffer.Initialize (some 1) 2 8 with
  | error e =>
    have hok : (Buffer.Initialize (some 1) 2 8).map (fun b => b.usePatternMode)
        = Except.ok true := by rfl
    rw [hini] at hok
    exact Except.noConfusion hok
  | ok b =>
    have hflag := C9_patternMode_amended.1 (some 1) 2 8 b hini
    show Except.ok (b.usePatternMode) = Except.ok true
    rw [hflag]
    rfl

/- ---------------------------------------------------------------- -/
/- Claim C5.                                                         -/
/- ---------------------------------------------------------------- -/

theorem findFirstDiffAux_none_iff (d1 d2 : Nat → Nat) (s1 s2 : Nat) :
    ∀ rem i, findFirstDiffAux d1 d2 s1 s2 i rem = none ↔
      ∀ j, i ≤ j → j < i + rem → d1 (s1 + j) = d2 (s2 + j) := by
  intro rem
  induction rem with
  | zero =>
    intro i
    constructor
    · intro _ j hij hj
      omega
    · intro _
      rfl
  | succ r ih =>
    intro i
    unfold findFirstDiffAux
    by_cases hd : d1 (s1 + i) ≠ d2 (s2 + i)
    · rw [if_pos hd]
      constructor
      · intro h; exact Option.noConfusion h
      · intro h
        exact absurd (h i (Nat.le_refl i) (by omega)) hd
    · rw [if_neg hd]
      push_neg at hd
      rw [ih (i + 1)]
      constructor
      · intro h j hij hj
        rcases Nat.eq_or_lt_of_le hij with heq | hlt
        · rw [← heq]; exact hd
        · exact h j hlt (by omega)
      · intro h j hij hj
        exact h j (by omega) (by omega)

theorem findFirstDiffAux_some (d1 d2 : Nat → Nat) (s1 s2 : Nat) :
    ∀ rem i j, findFirstDiffAux d1 d2 s1 s2 i rem = some j →
      i ≤ j ∧ j < i + rem ∧ d1 (s1 + j) ≠ d2 (s2 + j) ∧
      ∀ k, i ≤ k → k < j → d1 (s1 + k) = d2 (s2 + k) := by
  intro rem
  induction rem with
  | zero =>
    intro i j h
    exact Option.noConfusion h
  | succ r ih =>
    intro i j h
    unfold findFirstDiffAux at h
    by_cases hd : d1 (s1 + i) ≠ d2 (s2 + i)
    · rw [if_pos hd] at h
      have hj := Option.some.inj h
      subst hj
      exact ⟨Nat.le_refl i, by omega, hd, fun k hik hki => by omega⟩
    · rw [if_neg hd] at h
      push_neg at hd
      obtain ⟨h1, h2, h3, h4⟩ := ih (i + 1) j h
      refine ⟨by omega, by omega, h3, fun k hik hkj => ?_⟩
      rcases Nat.eq_or_lt_of_le hik with heq | hlt
      · rw [← heq]; exact hd
      · exact h4 k hlt hkj

theorem compareScan_spec (b1 b2 : Buffer) (s1 s2 n : Nat) :
    ∃ r, (match findFirstDiff b1.data b2.data s1 s2 n with
      | none => (pure CompareResult.mkEqual : Except Err CompareResult)
      | some i => pure (CompareResult.mkUnequal (s1 + i) (b1.data (s1 + i)) (b2.data (s2 + i))))
      = Except.ok r ∧
      (r.areEqual = true ↔ ∀ i, i < n → b1.data (s1 + i) = b2.data (s2 + i)) ∧
      (r.areEqual = true → r = CompareResult.mkEqual) ∧
      (r.areEqual = false → ∃ i, i < n ∧
        (∀ k, k < i → b1.data (s1 + k) = b2.data (s2 + k)) ∧
        b1.data (s1 + i) ≠ b2.data (s2 + i) ∧
        r = CompareResult.mkUnequal (s1 + i) (b1.data (s1 + i)) (b2.data (s2 + i))) := by
  cases hf : findFirstDiff b1.data b2.data s1 s2 n with
  | none =>
    refine ⟨CompareResult.mkEqual, rfl, ?_, fun _ => rfl, ?_⟩
    · have hall := (findFirstDiffAux_none_iff b1.data b2.data s1 s2 n 0).mp hf
      constructor
      · intro _ i hi
        exact hall i (Nat.zero_le i) (by omega)
      · intro _
        rfl
    · intro hfalse
      exact absurd hfalse (by simp [CompareResult.mkEqual])
  | some i =>
    obtain ⟨hi0, hin, hne, hpre⟩ := findFirstDiffAux_some b1.data b2.data s1 s2 n 0 i hf
    refine ⟨_, rfl, ?_, ?_, ?_⟩
    · constructor
      · intro htrue
        exact absurd htrue (by simp [CompareResult.mkUnequal])
      · intro hall
        exact absurd (hall i (by omega)) hne
    · intro htrue
      exact absurd htrue (by simp [CompareResult.mkUnequal])
    · intro _
      exact ⟨i, by omega, fun k hk => hpre k (Nat.zero_le k) hk, hne, rfl⟩

/-- C5: for every pair of buffers and every valid compare range,
CompareTo returns (never throws on content mismatch) an equal result
exactly when the compared spans are bytewise identical; otherwise the
result is `mkUnequal (s1 + i) (this byte) (other byte)` at the first
mismatch index i, so firstDifferenceOffset is absolute in the calling
buffer, expectedValue is the calling buffer's byte and actualValue the
other buffer's. -/
theorem C5_compareTo_spec (b1 b2 : Buffer) (ss ss2 cnt s1 e1 s2 e2 : Nat)
    (h1 : b1.getStartStop ss cnt = Except.ok (s1, e1))
    (h2 : b2.getStartStop ss2 cnt = Except.ok (s2, e2))
    (hspan : cnt ≠ 0 → e2 - s2 = e1 - s1) :
    ∃ r, b1.CompareTo b2 ss ss2 cnt = Except.ok r ∧
      (r.areEqual = true ↔
        ∀ i, i < (if cnt = 0 then min (e1 - s1) (e2 - s2) else e1 - s1) →
          b1.data (s1 + i) = b2.data (s2 + i)) ∧
      (r.areEqual = true → r = CompareResult.mkEqual) ∧
      (r.areEqual = false →
        ∃ i, i < (if cnt = 0 then min (e1 - s1) (e2 - s2) else e1 - s1) ∧
          (∀ k, k < i → b1.data (s1 + k) = b2.data (s2 + k)) ∧
          b1.data (s1 + i) ≠ b2.data (s2 + i) ∧
          r = CompareResult.mkUnequal (s1 + i) (b1.data (s1 + i)) (b2.data (s2 + i))) := by
  unfold Buffer.CompareTo
  rw [bind_ok_elim h1]
  dsimp only
  rw [bind_ok_elim h2]
  dsimp only
  by_cases hcnt : cnt = 0
  · rw [if_pos hcnt]
    rw [bind_ok_elim (pure_eq_ok _)]
    simp only [if_pos hcnt]
    exact compareScan_spec b1 b2 s1 s2 (min (e1 - s1) (e2 - s2))
  · rw [if_neg hcnt]
    rw [if_neg (by simp [hspan hcnt])]
    rw [bind_ok_elim (pure_eq_ok _)]
    simp only [if_neg hcnt]
    exact compareScan_spec b1 b2 s1 s2 (e1 - s1)

/-- Witness for C5 on concrete single-sector buffers differing at byte 2. -/
theorem C5_witness :
    ∃ r, (mkBuf 1 4 false).CompareTo
        { mkBuf 1 4 false with data := fun j => if j = 2 then 7 else 0 } 0 0 0
        = Except.ok r ∧
      (r.areEqual = true ↔ ∀ i, i < 4 →
        (mkBuf 1 4 false).data (0 + i) =
        (fun j => if j = 2 then 7 else 0) (0 + i)) ∧
      (r.areEqual = true → r = CompareResult.mkEqual) ∧
      (r.areEqual = false → ∃ i, i < 4 ∧
        (∀ k, k < i → (mkBuf 1 4 false).data (0 + k) =
          (fun j => if j = 2 then 7 else 0) (0 + k)) ∧
        (mkBuf 1 4 false).data (0 + i) ≠ (fun j => if j = 2 then 7 else 0) (0 + i) ∧
        r = CompareResult.mkUnequal (0 + i) ((mkBuf 1 4 false).data (0 + i))
          ((fun j => if j = 2 then 7 else 0) (0 + i))) :=
  C5_compareTo_spec (mkBuf 1 4 false)
    { mkBuf 1 4 false with data := fun j => if j = 2 then 7 else 0 }
    0 0 0 0 4 0 4 rfl rfl (fun h => absurd rfl h)

/- ---------------------------------------------------------------- -/
/- Claim C6.                                                         -/
/- ---------------------------------------------------------------- -/

theorem validateSectorRange_ok (b : Buffer) (ss cnt : Nat)
    (hss : ss < b.sectorCount) (hcnt : ss + cnt ≤ b.sectorCount) :
    b.validateSectorRange ss cnt =
      Except.ok (if cnt = 0 then b.sectorCount - ss else cnt) := by
  simp only [Buffer.validateSectorRange]
  rw [if_neg (show ¬ss ≥ b.sectorCount by omega)]
  rw [if_neg (show ¬ss + (if cnt = 0 then b.sectorCount - ss else cnt) > b.sectorCount by
    by_cases hc : cnt = 0
    · rw [if_pos hc]; omega
    · rw [if_neg hc]; omega)]

theorem getStartStop_ok (b : Buffer) (ss cnt : Nat)
    (hss : ss < b.sectorCount) (hcnt : ss + cnt ≤ b.sectorCount) :
    b.getStartStop ss cnt = Except.ok (ss * b.bytesPerSector,
      (ss + (if cnt = 0 then b.sectorCount - ss else cnt)) * b.bytesPerSector) := by
  unfold Buffer.getStartStop
  rw [bind_ok_elim (validateSectorRange_ok b ss cnt hss hcnt)]
  dsimp only
  rw [if_neg (show ¬(if cnt = 0 then b.sectorCount - ss else cnt) = 0 by
    by_cases hc : cnt = 0
    · rw [if_pos hc]; omega
    · rw [if_neg hc]; omega)]
  rfl

theorem FillSectors_ok (b : Buffer) (r : Random32) (ss cnt : Nat) (gb0 : Nat → Nat)
    (hss : ss < b.sectorCount) (hcnt : ss + cnt ≤ b.sectorCount) :
    ∃ b' r', b.FillSectorsWithRandomData r ss cnt gb0 = Except.ok (b', r') := by
  unfold Buffer.FillSectorsWithRandomData
  rw [bind_ok_elim (getStartStop_ok b ss cnt hss hcnt)]
  dsimp only
  rcases fillRandomWordsLoop b.usePatternMode b.bytesPerSector _ _ r.generator gb0 b.data
    with ⟨d, g', gbf⟩
  exact ⟨_, _, rfl⟩

theorem FillRandomImpl_ok (b : Buffer) (ss cnt : Nat) (us : Bool) (seed clock : Nat)
    (gb0 : Nat → Nat) (hm : b.bytesPerSector % 4 = 0)
    (hss : ss < b.sectorCount) (hcnt : ss + cnt ≤ b.sectorCount) :
    ∃ b', b.FillRandomImpl ss cnt us seed clock gb0 = Except.ok b' := by
  unfold Buffer.FillRandomImpl
  rw [if_neg (by omega)]
  obtain ⟨r0, hgr⟩ := GetRandom_shape b us seed clock
  rw [hgr]
  dsimp only
  obtain ⟨b2, r2, hfs⟩ := FillSectors_ok { b with random := some r0 } r0 ss cnt gb0 hss hcnt
  rw [bind_ok_elim hfs]
  exact ⟨_, rfl⟩

theorem fillBySectorLoop_ok (seed startSector : Nat) (gb0 : Nat → Nat) :
    ∀ (c : Nat) (b : Buffer) (r : Random32) (i : Nat), i + c ≤ b.sectorCount →
    ∃ b', b.fillBySectorLoop r seed startSector gb0 i c = Except.ok b' := by
  intro c
  induction c with
  | zero =>
    intro b r i _
    exact ⟨b, rfl⟩
  | succ c ih =>
    intro b r i hic
    unfold Buffer.fillBySectorLoop
    obtain ⟨b2, r2, hfs⟩ := FillSectors_ok b
      (r.SeedWith ((seed + i - startSector) % M32)) i 1 gb0 (by omega) (by omega)
    rw [bind_ok_elim hfs]
    dsimp only
    have hsc := (FillSectors_ok_shape _ _ i 1 gb0 b2 r2 hfs).2.2.1
    exact ih b2 r2 (i + 1) (by omega)

/-- C6: random fills on a buffer whose sector size is not a multiple of 4
fail with a Runtime error (thrown before the first mutation, which the
Except embedding models by returning the error with no new buffer);
with a multiple-of-4 sector size and a valid sector range, no Runtime
error is raised. -/
theorem C6_random_mult4 (b : Buffer) (ss cnt seed clock : Nat) (gb0 : Nat → Nat) :
    (b.bytesPerSector % 4 ≠ 0 →
      (∃ m, b.FillRandom ss cnt clock gb0 = Except.error (Err.runtime m)) ∧
      (∃ m, b.FillRandomSeeded seed ss cnt gb0 = Except.error (Err.runtime m)) ∧
      (∃ m, b.FillRandomSeededBySector seed ss cnt clock gb0 = Except.error (Err.runtime m))) ∧
    (b.bytesPerSector % 4 = 0 → ss < b.sectorCount → ss + cnt ≤ b.sectorCount →
      (∃ b', b.FillRandom ss cnt clock gb0 = Except.ok b') ∧
      (∃ b', b.FillRandomSeeded seed ss cnt gb0 = Except.ok b') ∧
      (∀ m, b.FillRandomSeededBySector seed ss cnt clock gb0 ≠ Except.error (Err.runtime m))) := by
  constructor
  · intro hm
    refine ⟨⟨"Filling random data is not supported for sector sizes that are not a multiple of 4.", ?_⟩,
      ⟨"Filling random data is not supported for sector sizes that are not a multiple of 4.", ?_⟩,
      ⟨"Filling random data is not supported for sector sizes that are not a mupltiple of 4.", ?_⟩⟩
    · unfold Buffer.FillRandom Buffer.FillRandomImpl
      rw [if_pos hm]; rfl
    · unfold Buffer.FillRandomSeeded Buffer.FillRandomImpl
      rw [if_pos hm]; rfl
    · unfold Buffer.FillRandomSeededBySector
      rw [if_pos hm]; rfl
  · intro hm hss hcnt
    refine ⟨?_, ?_, ?_⟩
    · exact FillRandomImpl_ok b ss cnt false 0 clock gb0 hm hss hcnt
    · exact FillRandomImpl_ok b ss cnt true seed 0 gb0 hm hss hcnt
    · intro m
      unfold Buffer.FillRandomSeededBySector
      rw [if_neg (by omega)]
      rw [bind_ok_elim (validateSectorRange_ok b ss cnt hss hcnt)]
      dsimp only
      cases hcm : validateCounterMax (ss + if cnt = 0 then b.sectorCount - ss else cnt) with
      | error e =>
        rw [bind_error_elim (rfl : (Except.error e : Except Err Unit) = Except.error e)]
        have hoor : ∃ s, e = Err.outOfRange s := by
          unfold validateCounterMax at hcm
          by_cases hbig : (ss + if cnt = 0 then b.sectorCount - ss else cnt) > 9223372036854775807
          · rw [if_pos hbig] at hcm
            exact ⟨_, (Except.error.inj hcm).symm⟩
          · rw [if_neg hbig] at hcm
            exact Except.noConfusion hcm
        obtain ⟨s, hs⟩ := hoor
        intro hh
        have heq := Except.error.inj hh
        rw [hs] at heq
        exact Err.noConfusion heq
      | ok u =>
        rw [bind_ok_elim (rfl : (Except.ok u : Except Err Unit) = Except.ok u)]
        rw [bind_ok_elim (rfl : (Except.ok u : Except Err Unit) = Except.ok u)]
        obtain ⟨r0, hgr⟩ := GetRandom_shape b true seed clock
        rw [hgr]
        dsimp only
        obtain ⟨b', hloop⟩ := fillBySectorLoop_ok seed ss gb0
          (if cnt = 0 then b.sectorCount - ss else cnt) { b with random := some r0 } r0 ss
          (by by_cases hc : cnt = 0
              · rw [if_pos hc]; show ss + (b.sectorCount - ss) ≤ b.sectorCount; omega
              · rw [if_neg hc]; show ss + cnt ≤ b.sectorCount; omega)
        rw [hloop]
        intro hh
        exact Except.noConfusion hh

/-- Witness for C6 at sector sizes 513 (rejected) and 8 (accepted). -/
theorem C6_witness :
    ((mkBuf 1 513 false).bytesPerSector % 4 ≠ 0 ∧
      ∃ m, (mkBuf 1 513 false).FillRandom 0 0 0 (fun _ => 0)
        = Except.error (Err.runtime m)) ∧
    ((mkBuf 2 8 false).bytesPerSector % 4 = 0 ∧
      ∃ b', (mkBuf 2 8 false).FillRandomSeeded 9 0 0 (fun _ => 0) = Except.ok b') :=
  ⟨⟨by decide, ((C6_random_mult4 (mkBuf 1 513 false) 0 0 0 0 (fun _ => 0)).1
      (by decide)).1⟩,
    ⟨by decide, ((C6_random_mult4 (mkBuf 2 8 false) 0 0 9 0 (fun _ => 0)).2
      (by decide) (by decide) (by decide)).2.1⟩⟩

/- ---------------------------------------------------------------- -/
/- Claim C7.                                                         -/
/- ---------------------------------------------------------------- -/

theorem writeCompressionRecord_zero (len sB : Nat) (d : Nat → Nat) (i : Nat)
    (hz : ∀ j, d j = 0) : ∀ j, writeCompressionRecord eFixPattern len sB d i j = 0 := by
  intro j
  unfold writeCompressionRecord
  rw [if_pos (Or.inl rfl)]
  rw [if_neg (not_not_intro ⟨hz sB, rfl⟩)]
  unfold memcpyF
  split
  · exact hz _
  · exact hz j

theorem fillCompressionInfoLoop_zero (S len sB eB : Nat) :
    ∀ fuel i d, (∀ j, d j = 0) →
    ∀ j, fillCompressionInfoLoop S eFixPattern len sB eB fuel i d j = 0 := by
  intro fuel
  induction fuel with
  | zero => intro i d hz j; exact hz j
  | succ f ih =>
    intro i d hz j
    unfold fillCompressionInfoLoop
    by_cases hi : i < eB
    · rw [if_pos hi]
      exact ih (i + S) _ (writeCompressionRecord_zero len sB d i hz) j
    · rw [if_neg hi]; exact hz j

theorem Initialize_data_zero (env : Option Int) (sc bps : Nat) (b : Buffer)
    (h : Buffer.Initialize env sc bps = Except.ok b) : ∀ j, b.data j = 0 := by
  unfold Buffer.Initialize at h
  by_cases h1 : sc < 1
  · rw [if_pos h1] at h; exact Except.noConfusion h
  · rw [if_neg h1] at h
    by_cases h2 : bps < 1
    · rw [if_pos h2] at h; exact Except.noConfusion h
    · rw [if_neg h2] at h
      unfold Buffer.Fill at h
      cases hgs : Buffer.getStartStop
          { name := "", bytesPerSector := bps, sectorCount := sc, random := none,
            usePatternMode := envPatternMode env, data := fun _ => 0 } 0 sc with
      | error e => rw [bind_error_elim hgs] at h; exact Except.noConfusion h
      | ok p =>
        obtain ⟨sB, eB⟩ := p
        rw [bind_ok_elim hgs] at h
        dsimp only at h
        have hb := Except.ok.inj h
        rw [← hb]
        intro j
        show (if envPatternMode env = true then
            fillCompressionInfo bps eFixPattern 1 sB eB
              (memsetF (fun _ => 0) sB 0 (eB - sB))
          else memsetF (fun _ => 0) sB 0 (eB - sB)) j = 0
        have hms : ∀ j, memsetF (fun _ => 0) sB 0 (eB - sB) j = 0 := by
          intro j; unfold memsetF; split <;> rfl
        cases hpm : envPatternMode env with
        | false => rw [if_neg Bool.false_ne_true]; exact hms j
        | true =>
          rw [if_pos rfl]
          unfold fillCompressionInfo
          rw [if_neg (by decide)]
          exact fillCompressionInfoLoop_zero bps 1 sB eB eB _ _ hms j

/-- C7: resize preserves the leading min(oldTotal, newTotal) payload
bytes, zero-fills every payload byte beyond that prefix, and releases the
PRNG slot. -/
theorem C7_resize (b : Buffer) (env : Option Int) (sc bps : Nat)
    (hsc : 1 ≤ sc) (hbps : 1 ≤ bps) :
    ∃ b', b.Resize env sc bps = Except.ok b' ∧
      (∀ j, j < min b.GetTotalBytes (sc * bps) → b'.data j = b.data j) ∧
      (∀ j, min b.GetTotalBytes (sc * bps) ≤ j → j < sc * bps → b'.data j = 0) ∧
      b'.random = none := by
  have hini : ∃ binit, Buffer.Initialize env sc bps = Except.ok binit := by
    unfold Buffer.Initialize
    rw [if_neg (by omega), if_neg (by omega)]
    unfold Buffer.Fill
    rw [bind_ok_elim (getStartStop_ok
      { name := "", bytesPerSector := bps, sectorCount := sc, random := none,
        usePatternMode := envPatternMode env, data := fun _ => 0 }
      0 sc (by show 0 < sc; omega) (by show 0 + sc ≤ sc; omega))]
    dsimp only
    exact ⟨_, rfl⟩
  obtain ⟨binit, hini⟩ := hini
  refine ⟨{ binit with data := fun j =>
      if (j < min b.GetTotalBytes (sc * bps)) then b.data j else binit.data j }, ?_, ?_, ?_, ?_⟩
  · unfold Buffer.Resize
    rw [bind_ok_elim hini]
    rfl
  · intro j hj
    simp only [if_pos hj]
  · intro j hj1 hj2
    simp only [if_neg (by omega : ¬j < min b.GetTotalBytes (sc * bps))]
    exact Initialize_data_zero env sc bps binit hini j
  · exact (Initialize_ok_shape env sc bps binit hini).2.2.2.1

/-- Witness for C7: resize a 1-sector buffer holding j+1 at byte j to two
sectors. -/
theorem C7_witness :
    ∃ b', ({ mkBuf 1 8 false with data := fun j => (j + 1) % 256 } : Buffer).Resize
        none 2 8 = Except.ok b' ∧
      (∀ j, j < 8 → b'.data j = (fun j => (j + 1) % 256 : Nat → Nat) j) ∧
      (∀ j, 8 ≤ j → j < 16 → b'.data j = 0) ∧
      b'.random = none :=
  C7_resize { mkBuf 1 8 false with data := fun j => (j + 1) % 256 } none 2 8
    (by decide) (by decide)

/- ---------------------------------------------------------------- -/
/- Claim C3: the doubling amplifier produces an exact repetition.     -/
/- ---------------------------------------------------------------- -/

theorem fillPatternLoop_of_ge (P : Nat) (fuel patternLen startByte endByte : Nat)
    (d : Nat → Nat) (h : ¬startByte < endByte) :
    fillPatternLoop P fuel patternLen startByte endByte d = d := by
  cases fuel with
  | zero => rfl
  | succ f => unfold fillPatternLoop; rw [if_neg h]

theorem fillPatternLoop_periodic (P L0 : Nat) (hL0 : 1 ≤ L0) :
    ∀ fuel patternLen startByte endByte d,
    endByte - startByte ≤ fuel →
    1 ≤ patternLen →
    L0 ∣ patternLen →
    P + patternLen ≤ startByte →
    L0 ∣ (startByte - P) →
    (∀ j, P ≤ j → j < startByte → d j = d (P + (j - P) % L0)) →
    (∀ j, P ≤ j → j < endByte →
      fillPatternLoop P fuel patternLen startByte endByte d j = d (P + (j - P) % L0)) ∧
    (∀ j, j < startByte ∨ endByte ≤ j →
      fillPatternLoop P fuel patternLen startByte endByte d j = d j) := by
  intro fuel
  induction fuel with
  | zero =>
    intro pl sB eB d hfuel hpl hdvd hle hdvd2 hper
    constructor
    · intro j hPj hje
      exact hper j hPj (by omega)
    · intro j _
      rfl
  | succ f ih =>
    intro pl sB eB d hfuel hpl hdvd hle hdvd2 hper
    by_cases hlt : sB < eB
    · unfold fillPatternLoop
      rw [if_pos hlt]
      obtain ⟨c, hc⟩ := hdvd2
      have hL0pl : L0 ≤ pl := Nat.le_of_dvd (by omega) hdvd
      have hmod : ∀ j, sB ≤ j → (j - P) % L0 = (j - sB) % L0 := by
        intro j hj
        have h1 : j - P = (j - sB) + L0 * c := by omega
        rw [h1, Nat.add_mul_mod_self_left]
      have hcanlt : ∀ j : Nat, (j - P) % L0 < L0 := fun j => Nat.mod_lt _ (by omega)
      have hdpin : ∀ j, sB ≤ j → j < sB + min pl (eB - sB) →
          memcpyF d sB P (min pl (eB - sB)) j = d (P + (j - P) % L0) := by
        intro j hj1 hj2
        rw [memcpyF_in hj1 hj2]
        have hu : j - sB < sB - P := by omega
        have := hper (P + (j - sB)) (by omega) (by omega)
        rw [this]
        have h2 : P + (j - sB) - P = j - sB := by omega
        rw [h2, ← hmod j hj1]
      have hdpout : ∀ j, j < sB ∨ sB + min pl (eB - sB) ≤ j →
          memcpyF d sB P (min pl (eB - sB)) j = d j := by
        intro j hj
        exact memcpyF_out (by omega)
      have hdper : ∀ j, P ≤ j → j < sB + min pl (eB - sB) →
          memcpyF d sB P (min pl (eB - sB)) j
            = memcpyF d sB P (min pl (eB - sB)) (P + (j - P) % L0) := by
        intro j hPj hj2
        have hcan : memcpyF d sB P (min pl (eB - sB)) (P + (j - P) % L0)
            = d (P + (j - P) % L0) := by
          apply hdpout
          left
          have := hcanlt j
          omega
        rw [hcan]
        by_cases hjs : j < sB
        · rw [hdpout j (Or.inl hjs)]
          exact hper j hPj hjs
        · exact hdpin j (by omega) hj2
      by_cases hend : sB + min pl (eB - sB) < eB
      · have hcopy : min pl (eB - sB) = pl := by omega
        rw [hcopy] at hdpin hdpout hdper ⊢
        have hih := ih (if pl ≥ 4096 then pl else pl * 2) (sB + pl) eB
          (memcpyF d sB P pl)
          (by omega)
          (by split <;> omega)
          (by split
              · exact hdvd
              · exact Dvd.dvd.mul_right hdvd 2)
          (by split <;> omega)
          (by obtain ⟨k, hk⟩ := hdvd
              exact ⟨c + k, by rw [Nat.mul_add, ← hc, ← hk]; omega⟩)
          (fun j hPj hjlt => hdper j hPj hjlt)
        constructor
        · intro j hPj hje
          rw [(hih.1 j hPj hje)]
          apply hdpout
          left
          have := hcanlt j
          omega
        · intro j hj
          rcases hj with hj | hj
          · rw [hih.2 j (Or.inl (by omega))]
            exact hdpout j (Or.inl hj)
          · rw [hih.2 j (Or.inr hj)]
            exact hdpout j (Or.inr (by omega))
      · have hcopy : min pl (eB - sB) = eB - sB := by omega
        have hskip : fillPatternLoop P f (if pl ≥ 4096 then pl else pl * 2)
            (sB + min pl (eB - sB)) eB (memcpyF d sB P (min pl (eB - sB)))
            = memcpyF d sB P (min pl (eB - sB)) :=
          fillPatternLoop_of_ge P f _ _ eB _ (by omega)
        rw [hskip]
        constructor
        · intro j hPj hje
          by_cases hjs : j < sB
          · rw [hdpout j (Or.inl hjs)]
            exact hper j hPj hjs
          · exact hdpin j (by omega) (by omega)
        · intro j hj
          apply hdpout
          rcases hj with hj | hj
          · exact Or.inl hj
          · exact Or.inr (by omega)
    · unfold fillPatternLoop
      rw [if_neg hlt]
      constructor
      · intro j hPj hje
        exact hper j hPj (by omega)
      · intro j _
        rfl

theorem validateSectorRange_inv (b : Buffer) (ss cnt n : Nat)
    (h : b.validateSectorRange ss cnt = Except.ok n) :
    ss < b.sectorCount ∧ ss + n ≤ b.sectorCount ∧ 1 ≤ n ∧
    (cnt = 0 → n = b.sectorCount - ss) ∧ (cnt ≠ 0 → n = cnt) := by
  simp only [Buffer.validateSectorRange] at h
  by_cases hc : cnt = 0
  · rw [if_pos hc] at h
    by_cases h1 : ss ≥ b.sectorCount
    · rw [if_pos h1] at h; exact Except.noConfusion h
    · rw [if_neg h1] at h
      by_cases h2 : ss + (b.sectorCount - ss) > b.sectorCount
      · rw [if_pos h2] at h; exact Except.noConfusion h
      · rw [if_neg h2] at h
        have hn := Except.ok.inj h
        exact ⟨by omega, by omega, by omega, fun _ => by omega,
          fun hcc => absurd hc hcc⟩
  · rw [if_neg hc] at h
    by_cases h1 : ss ≥ b.sectorCount
    · rw [if_pos h1] at h; exact Except.noConfusion h
    · rw [if_neg h1] at h
      by_cases h2 : ss + cnt > b.sectorCount
      · rw [if_pos h2] at h; exact Except.noConfusion h
      · rw [if_neg h2] at h
        have hn := Except.ok.inj h
        exact ⟨by omega, by omega, by omega, fun hcc => absurd hcc hc,
          fun _ => by omega⟩

theorem getStartStop_ok_inv (b : Buffer) (ss cnt sB eB : Nat)
    (h : b.getStartStop ss cnt = Except.ok (sB, eB)) :
    ∃ n, 1 ≤ n ∧ ss + n ≤ b.sectorCount ∧ sB = ss * b.bytesPerSector ∧
      eB = (ss + n) * b.bytesPerSector := by
  unfold Buffer.getStartStop at h
  cases hv : b.validateSectorRange ss cnt with
  | error e => rw [bind_error_elim hv] at h; exact Except.noConfusion h
  | ok n =>
    rw [bind_ok_elim hv] at h
    dsimp only at h
    obtain ⟨_, hle, hn1, _, _⟩ := validateSectorRange_inv b ss cnt n hv
    rw [if_neg (by omega)] at h
    have hp := Except.ok.inj h
    injection hp with hp1 hp2
    exact ⟨n, hn1, hle, hp1.symm, hp2.symm⟩

/-- C3 amended (pattern mode must be off): FillIncrementing writes the
first sector of the range as the 8-bit-wrapping sequence start, start+1,
… and the rest of the range is a byte-exact repetition of that first
sector with period bytesPerSector. -/
theorem C3_fillIncrementing_amended (b : Buffer) (hmode : b.usePatternMode = false)
    (start ss cnt sB eB : Nat) (hok : b.getStartStop ss cnt = Except.ok (sB, eB))
    (hS : 1 ≤ b.bytesPerSector) :
    ∃ b', b.FillIncrementing start ss cnt = Except.ok b' ∧
      (∀ k, k < b.bytesPerSector → b'.data (sB + k) = (start + k) % 256) ∧
      (∀ k, k < eB - sB →
        b'.data (sB + k) = b'.data (sB + k % b.bytesPerSector)) := by
  unfold Buffer.FillIncrementing
  rw [bind_ok_elim hok]
  dsimp only
  rw [if_neg (by rw [hmode]; exact Bool.false_ne_true)]
  obtain ⟨n, hn1, hn2, hsB, heB⟩ := getStartStop_ok_inv b ss cnt sB eB hok
  have heBsB : eB - sB = n * b.bytesPerSector := by
    rw [hsB, heB, Nat.add_mul]; omega
  have hd1char : ∀ k, k < b.bytesPerSector →
      incrementingWrite b.data sB b.bytesPerSector start (sB + k)
        = (start + k) % 256 := by
    intro k hk
    unfold incrementingWrite
    rw [if_pos ⟨by omega, by omega⟩]
    congr 2
    omega
  by_cases hgt : eB > sB + b.bytesPerSector
  · rw [if_pos hgt]
    have hper := fillPatternLoop_periodic sB b.bytesPerSector hS
      (eB - (sB + b.bytesPerSector)) b.bytesPerSector (sB + b.bytesPerSector) eB
      (incrementingWrite b.data sB b.bytesPerSector start)
      (Nat.le_refl _) (by omega) ⟨1, by omega⟩ (by omega) ⟨1, by omega⟩
      (fun j hj1 hj2 => by
        have hm : (j - sB) % b.bytesPerSector = j - sB := Nat.mod_eq_of_lt (by omega)
        rw [hm]
        congr 1
        omega)
    refine ⟨_, rfl, ?_, ?_⟩
    · intro k hk
      show fillPatternF (incrementingWrite b.data sB b.bytesPerSector start) sB
          b.bytesPerSector (sB + b.bytesPerSector) eB (sB + k) = (start + k) % 256
      unfold fillPatternF
      rw [hper.2 (sB + k) (Or.inl (by omega))]
      exact hd1char k hk
    · intro k hk
      show fillPatternF (incrementingWrite b.data sB b.bytesPerSector start) sB
          b.bytesPerSector (sB + b.bytesPerSector) eB (sB + k)
        = fillPatternF (incrementingWrite b.data sB b.bytesPerSector start) sB
          b.bytesPerSector (sB + b.bytesPerSector) eB (sB + k % b.bytesPerSector)
      unfold fillPatternF
      have hcan : (sB + k - sB) % b.bytesPerSector = k % b.bytesPerSector := by
        congr 1
        omega
      have hmodlt : k % b.bytesPerSector < b.bytesPerSector :=
        Nat.mod_lt k (by omega)
      by_cases hks : sB + k < sB + b.bytesPerSector
      · rw [hper.2 (sB + k) (Or.inl hks)]
        rw [hper.2 (sB + k % b.bytesPerSector) (Or.inl (by omega))]
        congr 1
        have hkk : k % b.bytesPerSector = k := Nat.mod_eq_of_lt (by omega)
        rw [hkk]
      · rw [hper.1 (sB + k) (by omega) (by omega), hcan]
        rw [hper.2 (sB + k % b.bytesPerSector) (Or.inl (by omega))]
  · rw [if_neg hgt]
    refine ⟨_, rfl, ?_, ?_⟩
    · intro k hk
      exact hd1char k hk
    · intro k hk
      have hklt : k < b.bytesPerSector := by omega
      have hkk : k % b.bytesPerSector = k := Nat.mod_eq_of_lt hklt
      rw [hkk]

/-- C3 counterexample: on a pattern-mode buffer (2 sectors of 32 bytes)
FillIncrementing(0) leaves 17 = 0x11 (the compression type byte for the
incrementing pattern) at byte offset 20, not the claimed sequence value
20. -/
theorem C3_counterexample :
    ((mkBuf 2 32 true).FillIncrementing 0 0 0).map (fun b => b.data 20)
      = Except.ok 17 ∧ (17 : Nat) ≠ (0 + 20) % 256 :=
  ⟨rfl, by decide⟩

/-- Witness for C3 amended on a 2-sector, 32-byte, non-pattern buffer. -/
theorem C3_witness :
    ∃ b', (mkBuf 2 32 false).FillIncrementing 5 0 0 = Except.ok b' ∧
      (∀ k, k < 32 → b'.data (0 + k) = (5 + k) % 256) ∧
      (∀ k, k < 64 - 0 → b'.data (0 + k) = b'.data (0 + k % 32)) :=
  C3_fillIncrementing_amended (mkBuf 2 32 false) rfl 5 0 0 0 64 rfl (by decide)

/- ---------------------------------------------------------------- -/
/- Claims C1 and C2: compression-metadata layout.                    -/
/- ---------------------------------------------------------------- -/

theorem writeCompressionRecord_char (typ len sB : Nat) (d : Nat → Nat) (i : Nat)
    (hlen : len ≤ 8) (hi : sB + 20 ≤ i) :
    (writeCompressionRecord typ len sB d i i
      = if d sB = 0 ∧ typ = eFixPattern then d i else ((typ <<< 4) ||| len) % 256) ∧
    ((typ = eFixPattern ∨ typ = eIncrementingPattern ∨ typ = eDecrementingPattern) →
      ∀ k, k < len → writeCompressionRecord typ len sB d i (i - 12 + k)
        = d (i - 20 + k)) ∧
    (∀ j, j ≠ i → ¬(i - 12 ≤ j ∧ j < i - 12 + len) →
      writeCompressionRecord typ len sB d i j = d j) := by
  unfold writeCompressionRecord
  simp only [COMPRESSION_PATTERN_SIZE_IN_BYTE, COMPRESSION_LBA_SIZE_IN_BYTE]
  by_cases hcond : d sB = 0 ∧ typ = eFixPattern
  · rw [if_neg (not_not_intro hcond), if_pos hcond]
    by_cases htyp : typ = eFixPattern ∨ typ = eIncrementingPattern ∨ typ = eDecrementingPattern
    · rw [if_pos htyp]
      refine ⟨?_, ?_, ?_⟩
      · rw [memcpyF_out (by omega)]
      · intro _ k hk
        rw [memcpyF_in (by omega) (by omega)]
        congr 1
        omega
      · intro j hj1 hj2
        rw [memcpyF_out (by omega)]
    · rw [if_neg htyp]
      exact ⟨rfl, fun ht => absurd ht htyp, fun j _ _ => rfl⟩
  · rw [if_pos hcond]
    by_cases htyp : typ = eFixPattern ∨ typ = eIncrementingPattern ∨ typ = eDecrementingPattern
    · rw [if_pos htyp]
      refine ⟨?_, ?_, ?_⟩
      · rw [memcpyF_out (by omega), if_neg hcond, if_pos rfl]
      · intro _ k hk
        rw [memcpyF_in (by omega) (by omega)]
        have harg : i - 12 - 8 + (i - 12 + k - (i - 12)) = i - 20 + k := by omega
        rw [harg]
        rw [if_neg (show i - 20 + k ≠ i by omega)]
      · intro j hj1 hj2
        rw [memcpyF_out (by omega), if_neg hj1]
    · rw [if_neg htyp]
      refine ⟨?_, ?_, ?_⟩
      · rw [if_neg hcond, if_pos rfl]
      · intro ht
        exact absurd ht htyp
      · intro j hj1 hj2
        rw [if_neg hj1]

theorem fillCompressionInfoLoop_spec (S typ len sB n : Nat)
    (hS : 21 ≤ S) (hlen : len ≤ 8) :
    ∀ fuel m0 d, sB + n * S - (sB + 20 + m0 * S) ≤ fuel →
      (∀ m, m0 ≤ m → m < n →
        (fillCompressionInfoLoop S typ len sB (sB + n * S) fuel (sB + 20 + m0 * S) d
            (sB + m * S + 20)
          = if d sB = 0 ∧ typ = eFixPattern then d (sB + m * S + 20)
            else ((typ <<< 4) ||| len) % 256) ∧
        ((typ = eFixPattern ∨ typ = eIncrementingPattern ∨ typ = eDecrementingPattern) →
          ∀ k, k < len →
          fillCompressionInfoLoop S typ len sB (sB + n * S) fuel (sB + 20 + m0 * S) d
              (sB + m * S + 8 + k)
            = d (sB + m * S + k))) ∧
      (∀ j, (∀ m, m0 ≤ m → m < n → j ≠ sB + m * S + 20 ∧
          ¬(sB + m * S + 8 ≤ j ∧ j < sB + m * S + 8 + len)) →
        fillCompressionInfoLoop S typ len sB (sB + n * S) fuel (sB + 20 + m0 * S) d j
          = d j) := by
  have hsep : ∀ m m' : Nat, m < m' → m * S + S ≤ m' * S := by
    intro m m' h
    have h2 : (m + 1) * S ≤ m' * S := Nat.mul_le_mul_right S h
    rw [Nat.succ_mul] at h2
    omega
  intro fuel
  induction fuel with
  | zero =>
    intro m0 d hfuel
    constructor
    · intro m hm0 hmn
      exfalso
      have h1 := hsep m0 n (by omega)
      omega
    · intro j _
      rfl
  | succ f ih =>
    intro m0 d hfuel
    by_cases hi : sB + 20 + m0 * S < sB + n * S
    · have hm0n : m0 < n := by
        by_contra hge
        have h1 : n * S ≤ m0 * S := Nat.mul_le_mul_right S (by omega)
        omega
      have hm0S := hsep m0 n hm0n
      unfold fillCompressionInfoLoop
      rw [if_pos hi]
      have hstep : sB + 20 + m0 * S + S = sB + 20 + (m0 + 1) * S := by
        rw [Nat.succ_mul]
        omega
      rw [hstep]
      obtain ⟨hcA, hcB, hcC⟩ := writeCompressionRecord_char typ len sB d
        (sB + 20 + m0 * S) hlen (by omega)
      have hdsB : writeCompressionRecord typ len sB d (sB + 20 + m0 * S) sB = d sB := by
        apply hcC
        · omega
        · omega
      have hih := ih (m0 + 1) (writeCompressionRecord typ len sB d (sB + 20 + m0 * S))
        (by rw [Nat.succ_mul]; omega)
      constructor
      · intro m hm0 hmn
        rcases Nat.eq_or_lt_of_le hm0 with heq | hlt
        · constructor
          · rw [hih.2 (sB + m * S + 20) ?side]
            case side =>
              intro m' hm' hm'n
              have hs := hsep m m' (by omega)
              constructor
              · omega
              · omega
            rw [← heq]
            have hieq : sB + m0 * S + 20 = sB + 20 + m0 * S := by omega
            rw [hieq, hcA]
          · intro htyp k hk
            rw [hih.2 (sB + m * S + 8 + k) ?side2]
            case side2 =>
              intro m' hm' hm'n
              have hs := hsep m m' (by omega)
              constructor
              · omega
              · omega
            rw [← heq]
            have hieq : sB + m0 * S + 8 + k = sB + 20 + m0 * S - 12 + k := by omega
            rw [hieq, hcB htyp k hk]
            congr 1
            omega
        · constructor
          · rw [(hih.1 m (by omega) hmn).1, hdsB]
            have hs := hsep m0 m hlt
            have hfr : writeCompressionRecord typ len sB d (sB + 20 + m0 * S)
                (sB + m * S + 20) = d (sB + m * S + 20) := by
              apply hcC
              · omega
              · omega
            rw [hfr]
          · intro htyp k hk
            rw [(hih.1 m (by omega) hmn).2 htyp k hk]
            have hs := hsep m0 m hlt
            apply hcC
            · omega
            · omega
      · intro j hj
        rw [hih.2 j (fun m' hm' hm'n => hj m' (by omega) hm'n)]
        obtain ⟨hj1, hj2⟩ := hj m0 (Nat.le_refl m0) hm0n
        apply hcC
        · omega
        · omega
    · unfold fillCompressionInfoLoop
      rw [if_neg hi]
      constructor
      · intro m hm0 hmn
        exfalso
        have h1 := hsep m0 n (by omega)
        have h2 : m0 * S ≤ m0 * S := Nat.le_refl _
        omega
      · intro j _
        rfl

theorem fillCompressionInfo_spec (S typ len sB n : Nat) (d : Nat → Nat)
    (hS : 21 ≤ S) (hlen : len ≤ 8) :
    (∀ m, m < n →
      (fillCompressionInfo S typ len sB (sB + n * S) d (sB + m * S + 20)
        = if d sB = 0 ∧ typ = eFixPattern then d (sB + m * S + 20)
          else ((typ <<< 4) ||| len) % 256) ∧
      ((typ = eFixPattern ∨ typ = eIncrementingPattern ∨ typ = eDecrementingPattern) →
        ∀ k, k < len →
          fillCompressionInfo S typ len sB (sB + n * S) d (sB + m * S + 8 + k)
            = d (sB + m * S + k))) ∧
    (∀ j, (∀ m, m < n → j ≠ sB + m * S + 20 ∧
        ¬(sB + m * S + 8 ≤ j ∧ j < sB + m * S + 8 + len)) →
      fillCompressionInfo S typ len sB (sB + n * S) d j = d j) := by
  unfold fillCompressionInfo
  rw [if_neg (show ¬len > COMPRESSION_MAX_PATTERN_LEN by
    simp only [COMPRESSION_MAX_PATTERN_LEN]; omega)]
  have h0 : sB + COMPRESSION_LBA_SIZE_IN_BYTE + COMPRESSION_PATTERN_SIZE_IN_BYTE
      = sB + 20 + 0 * S := by
    simp only [COMPRESSION_LBA_SIZE_IN_BYTE, COMPRESSION_PATTERN_SIZE_IN_BYTE]
    omega
  rw [h0]
  have hmain := fillCompressionInfoLoop_spec S typ len sB n hS hlen (sB + n * S) 0 d
    (by omega)
  exact ⟨fun m hm => hmain.1 m (Nat.zero_le m) hm,
    fun j hj => hmain.2 j (fun m _ hm => hj m hm)⟩

theorem fillBytes_payload (dts : Nat → Nat) (sB eB : Nat) (list : List Nat)
    (hl1 : 1 ≤ list.length) :
    ∀ k, k < eB - sB →
      (if eB > sB + list.length then
        fillPatternF (patternWrite dts sB list (min (sB + list.length) eB)) sB
          list.length (sB + list.length) eB
       else patternWrite dts sB list (min (sB + list.length) eB)) (sB + k)
      = list.getD (k % list.length) 0 % 256 := by
  intro k hk
  have hmodlt : ∀ x : Nat, x % list.length < list.length :=
    fun x => Nat.mod_lt x (by omega)
  have hpw : ∀ j, sB ≤ j → j < min (sB + list.length) eB →
      patternWrite dts sB list (min (sB + list.length) eB) j
        = list.getD ((j - sB) % list.length) 0 % 256 := by
    intro j h1 h2
    unfold patternWrite
    rw [if_pos ⟨h1, h2⟩]
  by_cases hgt : eB > sB + list.length
  · have hper := fillPatternLoop_periodic sB list.length hl1 (eB - (sB + list.length))
      list.length (sB + list.length) eB
      (patternWrite dts sB list (min (sB + list.length) eB))
      (Nat.le_refl _) (by omega) ⟨1, by omega⟩ (by omega) ⟨1, by omega⟩
      (fun j hj1 hj2 => by
        rw [hpw j hj1 (by omega)]
        rw [hpw (sB + (j - sB) % list.length) (by omega)
          (by have := hmodlt (j - sB); omega)]
        congr 2
        have h3 : sB + (j - sB) % list.length - sB = (j - sB) % list.length := by
          omega
        rw [h3, Nat.mod_mod_of_dvd _ dvd_rfl])
    rw [if_pos hgt]
    unfold fillPatternF
    by_cases hks : sB + k < sB + list.length
    · rw [hper.2 (sB + k) (Or.inl hks)]
      rw [hpw (sB + k) (by omega) (by omega)]
      have h3 : sB + k - sB = k := by omega
      rw [h3]
    · rw [hper.1 (sB + k) (by omega) (by omega)]
      rw [hpw (sB + (sB + k - sB) % list.length) (by omega)
        (by have := hmodlt (sB + k - sB); omega)]
      congr 2
      have h3 : sB + (sB + k - sB) % list.length - sB
          = (sB + k - sB) % list.length := by omega
      rw [h3]
      have h4 : sB + k - sB = k := by omega
      rw [h4, Nat.mod_mod_of_dvd _ dvd_rfl]
  · rw [if_neg hgt]
    rw [hpw (sB + k) (by omega) (by omega)]
    congr 2
    have h3 : sB + k - sB = k := by omega
    rw [h3]

/-- C2 counterexample: FillBytes([1,0]) on a pattern-mode buffer with two
21-byte sectors. The first byte of sector 1 (absolute offset 21) is 0 and
the compression type is fixed, yet the sector's type+length byte at
offset 41 IS written (value 2 = (eFixPattern << 4) | 2, overwriting the
pattern byte 1): the zero-page test uses the first byte of the whole fill
range (offset 0, value 1), not the first byte of each sector. -/
theorem C2_counterexample :
    ((mkBuf 2 21 true).FillBytes [1, 0] 0 0).map
        (fun b => (b.data 21, b.data 41)) = Except.ok (0, 2) ∧ (2 : Nat) ≠ 1 :=
  ⟨rfl, by decide⟩

/-- C2 amended: in pattern mode, a fixed-pattern fill decides the
zero-page rule once for the whole range, from the byte written at
startByte (the first pattern byte): if it is 0 no affected sector's
type+length byte is written (the byte keeps its payload value), otherwise
the type+length byte of every affected sector is written (at sector
offset 20, value (eFixPattern << 4) | patternLength). -/
theorem C2_fillBytes_amended (b : Buffer) (hmode : b.usePatternMode = true)
    (hS : 21 ≤ b.bytesPerSector) (list : List Nat) (hl1 : 1 ≤ list.length)
    (hl8 : list.length ≤ 8) (ss cnt sB eB : Nat)
    (hok : b.getStartStop ss cnt = Except.ok (sB, eB)) :
    ∃ b', b.FillBytes list ss cnt = Except.ok b' ∧
      ∀ m, sB + m * b.bytesPerSector + 20 < eB →
        b'.data (sB + m * b.bytesPerSector + 20)
          = if list.getD 0 0 % 256 = 0
            then list.getD ((m * b.bytesPerSector + 20) % list.length) 0 % 256
            else list.length := by
  have hsep : ∀ m m' : Nat, m < m' → m * b.bytesPerSector + b.bytesPerSector
      ≤ m' * b.bytesPerSector := by
    intro m m' h
    have h2 : (m + 1) * b.bytesPerSector ≤ m' * b.bytesPerSector :=
      Nat.mul_le_mul_right _ h
    rw [Nat.succ_mul] at h2
    omega
  unfold Buffer.FillBytes
  rw [if_pos (show list.length ≠ 0 by omega)]
  rw [bind_ok_elim hok]
  dsimp only
  rw [if_pos hmode]
  obtain ⟨n, hn1, hn2, hsB, heB⟩ := getStartStop_ok_inv b ss cnt sB eB hok
  have heB2 : eB = sB + n * b.bytesPerSector := by
    rw [hsB, heB, Nat.add_mul]
  have hlenmod : list.length % 256 = list.length := Nat.mod_eq_of_lt (by omega)
  have hpay := fillBytes_payload b.data sB eB list hl1
  have hspec := fillCompressionInfo_spec b.bytesPerSector eFixPattern
    (list.length % 256) sB n
    (if eB > sB + list.length then
      fillPatternF (patternWrite b.data sB list (min (sB + list.length) eB)) sB
        list.length (sB + list.length) eB
     else patternWrite b.data sB list (min (sB + list.length) eB))
    hS (by omega)
  rw [← heB2] at hspec
  refine ⟨_, rfl, ?_⟩
  intro m hm
  have hmn : m < n := by
    by_contra hge
    have h1 : n * b.bytesPerSector ≤ m * b.bytesPerSector :=
      Nat.mul_le_mul_right _ (by omega)
    omega
  have hd2sB : (if eB > sB + list.length then
      fillPatternF (patternWrite b.data sB list (min (sB + list.length) eB)) sB
        list.length (sB + list.length) eB
     else patternWrite b.data sB list (min (sB + list.length) eB)) (sB + 0)
      = list.getD 0 0 % 256 := by
    have h0 : 0 < eB - sB := by
      have := hsep 0 n (by omega)
      omega
    have := hpay 0 h0
    rw [this, Nat.zero_mod]
  rw [Nat.add_zero] at hd2sB
  have htype := (hspec.1 m hmn).1
  rw [hd2sB] at htype
  show fillCompressionInfo b.bytesPerSector eFixPattern (list.length % 256) sB eB _
      (sB + m * b.bytesPerSector + 20) = _
  rw [htype]
  by_cases hz : list.getD 0 0 % 256 = 0
  · rw [if_pos ⟨hz, rfl⟩, if_pos hz]
    have hk : m * b.bytesPerSector + 20 < eB - sB := by omega
    have := hpay (m * b.bytesPerSector + 20) hk
    have harr : sB + (m * b.bytesPerSector + 20) = sB + m * b.bytesPerSector + 20 := by
      omega
    rw [harr] at this
    exact this
  · rw [if_neg (fun hand => hz hand.1), if_neg hz]
    show (eFixPattern <<< 4 ||| list.length % 256) % 256 = list.length
    have : eFixPattern <<< 4 ||| list.length % 256 = list.length % 256 := by
      simp [eFixPattern]
    rw [this, hlenmod, hlenmod]

/-- Witness for C2 amended: FillBytes([7]) on a 2-sector, 21-byte,
pattern-mode buffer writes type byte 1 at sector offsets 20 and 41. -/
theorem C2_witness :
    ∃ b', (mkBuf 2 21 true).FillBytes [7] 0 0 = Except.ok b' ∧
      ∀ m, 0 + m * 21 + 20 < 42 →
        b'.data (0 + m * 21 + 20)
          = if ([7] : List Nat).getD 0 0 % 256 = 0
            then ([7] : List Nat).getD ((m * 21 + 20) % ([7] : List Nat).length) 0 % 256
            else ([7] : List Nat).length :=
  C2_fillBytes_amended (mkBuf 2 21 true) rfl (by decide) [7] (by decide) (by decide)
    0 0 0 42 rfl

/- ---------------------------------------------------------------- -/
/- Random-fill word loop: snapshot placement and determinism.        -/
/- ---------------------------------------------------------------- -/

theorem writeWordLE_in {d : Nat → Nat} {i w j : Nat}
    (h1 : 4 * i ≤ j) (h2 : j < 4 * i + 4) :
    writeWordLE d i w j = word32Byte w (j - 4 * i) := by
  simp [writeWordLE, h1, h2]

theorem writeWordLE_out {d : Nat → Nat} {i w j : Nat}
    (h : ¬(4 * i ≤ j ∧ j < 4 * i + 4)) : writeWordLE d i w j = d j := by
  simp only [writeWordLE, if_neg h]

theorem writeGenBuffer_in {d : Nat → Nat} {s : Nat} {gb : Nat → Nat} {j : Nat}
    (h1 : s ≤ j) (h2 : j < s + 12) : writeGenBuffer d s gb j = gb (j - s) := by
  simp [writeGenBuffer, h1, h2]

theorem writeGenBuffer_out {d : Nat → Nat} {s : Nat} {gb : Nat → Nat} {j : Nat}
    (h : ¬(s ≤ j ∧ j < s + 12)) : writeGenBuffer d s gb j = d j := by
  simp only [writeGenBuffer, if_neg h]

theorem Taus88.iterate_add (g : Taus88) (a b : Nat) :
    Taus88.iterate g (a + b) = Taus88.iterate (Taus88.iterate g a) b := by
  induction b with
  | zero => rfl
  | succ b ih =>
    show Taus88.iterate g (a + b) |>.next.2 = _
    rw [ih]
    rfl

theorem fillRandomWordsLoop_split (mode : Bool) (S : Nat) (a : Nat) :
    ∀ b i g gb d,
    fillRandomWordsLoop mode S (a + b) i g gb d
      = fillRandomWordsLoop mode S b (i + a)
          (fillRandomWordsLoop mode S a i g gb d).2.1
          (fillRandomWordsLoop mode S a i g gb d).2.2
          (fillRandomWordsLoop mode S a i g gb d).1 := by
  induction a with
  | zero =>
    intro b i g gb d
    rw [Nat.zero_add]
    rfl
  | succ a ih =>
    intro b i g gb d
    have hc : a + 1 + b = (a + b) + 1 := by omega
    rw [hc]
    simp only [fillRandomWordsLoop]
    rw [ih]
    have harith : i + 1 + a = i + (a + 1) := by omega
    rw [harith]

/-- In a stretch of word indices whose sector offsets avoid 0 and 6, the
loop only writes the drawn words: genBuffer is untouched, the generator
advances once per word, and bytes outside the word range keep their
values. -/
theorem fillRandomWordsLoop_tail (mode : Bool) (S : Nat) :
    ∀ rem i g gb d,
    (∀ t, t < rem → (i + t) % (S / 4) ≠ 0 ∧ (i + t) % (S / 4) ≠ 6) →
    (fillRandomWordsLoop mode S rem i g gb d).2.2 = gb ∧
    (fillRandomWordsLoop mode S rem i g gb d).2.1 = Taus88.iterate g rem ∧
    (∀ j, j < 4 * i ∨ 4 * (i + rem) ≤ j →
      (fillRandomWordsLoop mode S rem i g gb d).1 j = d j) := by
  intro rem
  induction rem with
  | zero =>
    intro i g gb d _
    exact ⟨rfl, rfl, fun j _ => rfl⟩
  | succ rem ih =>
    intro i g gb d hsbi
    obtain ⟨h0, h6⟩ := hsbi 0 (Nat.succ_pos rem)
    rw [Nat.add_zero] at h0 h6
    simp only [fillRandomWordsLoop]
    rw [if_neg (fun h => h0 h.2), if_neg (fun h => h6 h.2.2)]
    have hrec := ih (i + 1) g.next.2 gb (writeWordLE d i g.next.1)
      (fun t ht => by
        have := hsbi (t + 1) (by omega)
        have harith : i + 1 + t = i + (t + 1) := by omega
        rw [harith]
        exact this)
    refine ⟨hrec.1, ?_, ?_⟩
    · rw [hrec.2.1]
      have : rem + 1 = 1 + rem := by omega
      rw [this, Taus88.iterate_add g 1 rem]
      rfl
    · intro j hj
      rw [hrec.2.2 j (by omega)]
      exact writeWordLE_out (by omega)

theorem fillRandomWordsLoop_zero (mode : Bool) (S i : Nat) (g : Taus88)
    (gb d : Nat → Nat) :
    fillRandomWordsLoop mode S 0 i g gb d = (d, g, gb) := rfl

theorem fillRandomWordsLoop_succ (mode : Bool) (S rem i : Nat) (g : Taus88)
    (gb d : Nat → Nat) :
    fillRandomWordsLoop mode S (rem + 1) i g gb d
      = fillRandomWordsLoop mode S rem (i + 1) g.next.2
          (if mode ∧ i % (S / 4) = 0 then g.stateByte else gb)
          (writeWordLE
            (if mode ∧ ¬i % (S / 4) = 0 ∧ i % (S / 4) = 6 then
              writeGenBuffer d (4 * (i - 4)) gb
            else d) i g.next.1) := rfl

/-- One pattern-mode sector of the word loop, entered at sector-aligned
word index (S/4)*q: the entry generator state is snapshotted into
genBuffer at word offset 0 and copied into the sector at byte offset 8
when the loop reaches word offset 6, so sector bytes [8, 20) hold the
entry state; all writes stay inside the sector's words. -/
theorem fillRandomWordsLoop_sector (S : Nat) (hW : 7 ≤ S / 4) (q : Nat)
    (g : Taus88) (gb d : Nat → Nat) :
    (fillRandomWordsLoop true S (S / 4) (S / 4 * q) g gb d).2.2 = g.stateByte ∧
    (fillRandomWordsLoop true S (S / 4) (S / 4 * q) g gb d).2.1
      = Taus88.iterate g (S / 4) ∧
    (∀ t, t < 12 →
      (fillRandomWordsLoop true S (S / 4) (S / 4 * q) g gb d).1
        (4 * (S / 4 * q) + 8 + t) = g.stateByte t) ∧
    (∀ j, j < 4 * (S / 4 * q) ∨ 4 * (S / 4 * q + S / 4) ≤ j →
      (fillRandomWordsLoop true S (S / 4) (S / 4 * q) g gb d).1 j = d j) := by
  have hmod : ∀ t, t < S / 4 → (S / 4 * q + t) % (S / 4) = t := by
    intro t ht
    rw [Nat.mul_add_mod]
    exact Nat.mod_eq_of_lt ht
  have hmod0 : S / 4 * q % (S / 4) = 0 := Nat.mul_mod_right _ _
  have hsplit : S / 4 = 0 + 1 + 1 + 1 + 1 + 1 + 1 + 1 + (S / 4 - 7) := by omega
  have hcnt : fillRandomWordsLoop true S (S / 4) (S / 4 * q) g gb d
      = fillRandomWordsLoop true S (0 + 1 + 1 + 1 + 1 + 1 + 1 + 1 + (S / 4 - 7))
          (S / 4 * q) g gb d := by
    conv_rhs => rw [← hsplit]
  rw [hcnt, fillRandomWordsLoop_split]
  rw [fillRandomWordsLoop_succ, hmod0]
  rw [if_pos ⟨rfl, rfl⟩, if_neg (by simp)]
  rw [fillRandomWordsLoop_succ, hmod 1 (by omega)]
  rw [if_neg (by simp), if_neg (by simp)]
  rw [show S / 4 * q + 1 + 1 = S / 4 * q + 2 from rfl]
  rw [fillRandomWordsLoop_succ, hmod 2 (by omega)]
  rw [if_neg (by simp), if_neg (by simp)]
  rw [show S / 4 * q + 2 + 1 = S / 4 * q + 3 from rfl]
  rw [fillRandomWordsLoop_succ, hmod 3 (by omega)]
  rw [if_neg (by simp), if_neg (by simp)]
  rw [show S / 4 * q + 3 + 1 = S / 4 * q + 4 from rfl]
  rw [fillRandomWordsLoop_succ, hmod 4 (by omega)]
  rw [if_neg (by simp), if_neg (by simp)]
  rw [show S / 4 * q + 4 + 1 = S / 4 * q + 5 from rfl]
  rw [fillRandomWordsLoop_succ, hmod 5 (by omega)]
  rw [if_neg (by simp), if_neg (by simp)]
  rw [show S / 4 * q + 5 + 1 = S / 4 * q + 6 from rfl]
  rw [fillRandomWordsLoop_succ, hmod 6 (by omega)]
  rw [if_neg (by simp), if_pos ⟨rfl, by simp, rfl⟩]
  rw [show 4 * (S / 4 * q + 6 - 4) = 4 * (S / 4 * q) + 8 by omega]
  rw [show S / 4 * q + (0 + 1 + 1 + 1 + 1 + 1 + 1 + 1) = S / 4 * q + 7 from rfl]
  have hcond : ∀ t, t < S / 4 - 7 →
      (S / 4 * q + 7 + t) % (S / 4) ≠ 0 ∧ (S / 4 * q + 7 + t) % (S / 4) ≠ 6 := by
    intro t ht
    have h1 : S / 4 * q + 7 + t = S / 4 * q + (7 + t) := by omega
    rw [h1, hmod (7 + t) (by omega)]
    omega
  have htail := fillRandomWordsLoop_tail true S (S / 4 - 7) (S / 4 * q + 7)
  refine ⟨?_, ?_, ?_, ?_⟩
  · rw [(htail _ _ _ hcond).1]
    rfl
  · rw [(htail _ _ _ hcond).2.1]
    conv_rhs => rw [hsplit]
    rw [show (0 + 1 + 1 + 1 + 1 + 1 + 1 + 1 + (S / 4 - 7) : Nat)
      = (0 + 1 + 1 + 1 + 1 + 1 + 1 + 1) + (S / 4 - 7) from rfl]
    rw [Taus88.iterate_add]
    rfl
  · intro t ht
    rw [(htail _ _ _ hcond).2.2 (4 * (S / 4 * q) + 8 + t) (Or.inl (by omega))]
    rw [fillRandomWordsLoop_zero]
    dsimp only
    rw [writeWordLE_out (by omega)]
    rw [writeGenBuffer_in (by omega) (by omega)]
    rw [show 4 * (S / 4 * q) + 8 + t - (4 * (S / 4 * q) + 8) = t from by omega]
  · intro j hj
    have hj2 : j < 4 * (S / 4 * q) ∨ 4 * (S / 4 * q) + 4 * (S / 4) ≤ j := by
      rcases hj with h | h
      · exact Or.inl h
      · right
        have h4 : 4 * (S / 4 * q + S / 4) = 4 * (S / 4 * q) + 4 * (S / 4) := by
          omega
        omega
    have hjc : j < 4 * (S / 4 * q + 7) ∨ 4 * (S / 4 * q + 7 + (S / 4 - 7)) ≤ j := by
      rcases hj2 with h | h
      · exact Or.inl (by omega)
      · right
        omega
    rw [(htail _ _ _ hcond).2.2 j hjc]
    rw [fillRandomWordsLoop_zero]
    dsimp only
    rw [writeWordLE_out (by omega), writeGenBuffer_out (by omega),
      writeWordLE_out (by omega), writeWordLE_out (by omega),
      writeWordLE_out (by omega), writeWordLE_out (by omega),
      writeWordLE_out (by omega), writeWordLE_out (by omega)]

/-- n pattern-mode sectors from an aligned start: sector m of the range
holds, at sector byte offsets [8, 20), the snapshot of the generator
state at that sector's start (after m*(S/4) draws); all writes stay
within the range's bytes. -/
theorem fillRandomWordsLoop_sectors (S : Nat) (hW : 7 ≤ S / 4) :
    ∀ (n q : Nat) (g : Taus88) (gb d : Nat → Nat),
    (∀ m, m < n → ∀ t, t < 12 →
      (fillRandomWordsLoop true S (n * (S / 4)) (S / 4 * q) g gb d).1
        (4 * (S / 4 * (q + m)) + 8 + t)
        = (Taus88.iterate g (m * (S / 4))).stateByte t) ∧
    (∀ j, j < 4 * (S / 4 * q) ∨ 4 * (S / 4 * (q + n)) ≤ j →
      (fillRandomWordsLoop true S (n * (S / 4)) (S / 4 * q) g gb d).1 j = d j) := by
  intro n
  induction n with
  | zero =>
    intro q g gb d
    constructor
    · intro m hm
      exact absurd hm (Nat.not_lt_zero m)
    · intro j hj
      rw [show (0 * (S / 4) : Nat) = 0 from by omega, fillRandomWordsLoop_zero]
  | succ n ih =>
    intro q g gb d
    have hc : (n + 1) * (S / 4) = S / 4 + n * (S / 4) := by
      rw [Nat.succ_mul]
      omega
    rw [hc, fillRandomWordsLoop_split]
    obtain ⟨hgb, hgen, hsnap, hframe⟩ := fillRandomWordsLoop_sector S hW q g gb d
    rw [hgb, hgen]
    have hidx : S / 4 * q + S / 4 = S / 4 * (q + 1) := by ring
    rw [hidx]
    have hih := ih (q + 1) (Taus88.iterate g (S / 4)) g.stateByte
      ((fillRandomWordsLoop true S (S / 4) (S / 4 * q) g gb d).1)
    have he1 : S / 4 * (q + 1) = S / 4 * q + S / 4 := by ring
    constructor
    · intro m hm t ht
      cases m with
      | zero =>
        have he2 : S / 4 * (q + 0) = S / 4 * q := by ring
        rw [hih.2 (4 * (S / 4 * (q + 0)) + 8 + t) (Or.inl (by omega))]
        rw [he2, show (0 * (S / 4) : Nat) = 0 from by omega]
        exact hsnap t ht
      | succ m =>
        have hpos : S / 4 * (q + (m + 1)) = S / 4 * (q + 1 + m) := by ring
        rw [hpos]
        rw [hih.1 m (by omega) t ht]
        rw [← Taus88.iterate_add]
        congr 2
        ring
    · intro j hj
      have he2 : S / 4 * (q + (n + 1)) = S / 4 * q + S / 4 * n + S / 4 := by ring
      have he3 : S / 4 * (q + 1 + n) = S / 4 * q + S / 4 * n + S / 4 := by ring
      have hjc : j < 4 * (S / 4 * (q + 1)) ∨ 4 * (S / 4 * (q + 1 + n)) ≤ j := by
        rcases hj with h | h
        · left
          omega
        · right
          omega
      rw [hih.2 j hjc]
      apply hframe
      rcases hj with h | h
      · exact Or.inl h
      · right
        omega

/-- Filling the whole buffer: `getStartStop 0 0` yields the byte range
`[0, sectorCount * bytesPerSector)`. -/
theorem getStartStop_full (b : Buffer) (hsc : 1 ≤ b.sectorCount) :
    b.getStartStop 0 0 = Except.ok (0, b.sectorCount * b.bytesPerSector) := by
  unfold Buffer.getStartStop Buffer.validateSectorRange
  simp only [if_pos rfl, if_true, Nat.sub_zero, Nat.zero_add]
  rw [if_neg (by omega), if_neg (by omega)]
  rw [bind_ok_elim (rfl : (Except.ok b.sectorCount : Except Err Nat) = Except.ok b.sectorCount)]
  rw [if_neg (by omega), Nat.zero_mul]
  rfl

/-- `GetRandom` with `useSeed = true` always installs and returns a PRNG
freshly seeded to `seed`, whatever the slot held before. -/
theorem GetRandom_true (b : Buffer) (seed clock : Nat) :
    b.GetRandom true seed clock
      = ({ b with random := some (Random32.mkSeeded seed) }, Random32.mkSeeded seed) := by
  unfold Buffer.GetRandom
  cases hcr : b.random with
  | none => rfl
  | some r => rfl

/-- Pattern-mode random fill: for each affected sector, the 12 bytes at
sector offsets [8, 20) are the snapshot of the PRNG state taken when
that sector's fill began, and sector offset 20 carries the random
type/length byte. -/
theorem FillSectors_pattern_spec (b : Buffer) (r : Random32) (ss cnt sB eB : Nat)
    (gb0 : Nat → Nat)
    (hmode : b.usePatternMode = true)
    (hmod : b.bytesPerSector % 4 = 0)
    (hW : 7 ≤ b.bytesPerSector / 4)
    (hss : b.getStartStop ss cnt = Except.ok (sB, eB)) :
    ∃ n b2 r2, 1 ≤ n ∧ sB = ss * b.bytesPerSector ∧
      eB = sB + n * b.bytesPerSector ∧
      b.FillSectorsWithRandomData r ss cnt gb0 = Except.ok (b2, r2) ∧
      (∀ m, m < n → ∀ t, t < 12 →
        b2.data (sB + m * b.bytesPerSector + 8 + t)
          = (Taus88.iterate r.generator (m * (b.bytesPerSector / 4))).stateByte t) ∧
      (∀ m, m < n → b2.data (sB + m * b.bytesPerSector + 20)
        = ((eRandomPattern <<< 4) ||| 0) % 256) := by
  obtain ⟨n, hn1, hle, hsB, heB⟩ := getStartStop_ok_inv b ss cnt sB eB hss
  have hS28 : 28 ≤ b.bytesPerSector := by omega
  have hdvd : (4 : Nat) ∣ b.bytesPerSector := Nat.dvd_of_mod_eq_zero hmod
  have h4S : 4 * (b.bytesPerSector / 4) = b.bytesPerSector := by omega
  have heB2 : eB = sB + n * b.bytesPerSector := by
    rw [hsB, heB, Nat.add_mul]
  have hsB4 : sB / 4 = b.bytesPerSector / 4 * ss := by
    rw [hsB, Nat.mul_div_assoc ss hdvd, Nat.mul_comm]
  have heB4 : eB / 4 = b.bytesPerSector / 4 * (ss + n) := by
    rw [heB, Nat.mul_div_assoc (ss + n) hdvd, Nat.mul_comm]
  have hcount : eB / 4 - sB / 4 = n * (b.bytesPerSector / 4) := by
    have e1 : b.bytesPerSector / 4 * (ss + n)
        = b.bytesPerSector / 4 * ss + n * (b.bytesPerSector / 4) := by ring
    omega
  have heq : b.FillSectorsWithRandomData r ss cnt gb0
      = Except.ok
        ({ b with data := fillCompressionInfo b.bytesPerSector eRandomPattern 0 sB eB (fillRandomWordsLoop true b.bytesPerSector (n * (b.bytesPerSector / 4)) (b.bytesPerSector / 4 * ss) r.generator gb0 b.data).1 },
          { r with generator := (fillRandomWordsLoop true b.bytesPerSector (n * (b.bytesPerSector / 4)) (b.bytesPerSector / 4 * ss) r.generator gb0 b.data).2.1 }) := by
    unfold Buffer.FillSectorsWithRandomData
    rw [bind_ok_elim hss]
    dsimp only
    rw [hmode, hcount, hsB4]
    rfl
  refine ⟨n, _, _, hn1, hsB, heB2, heq, ?_, ?_⟩
  all_goals
    have hsect := fillRandomWordsLoop_sectors b.bytesPerSector hW n ss r.generator gb0 b.data
    have hcomp := fillCompressionInfo_spec b.bytesPerSector eRandomPattern 0 sB n
      (fillRandomWordsLoop true b.bytesPerSector (n * (b.bytesPerSector / 4))
        (b.bytesPerSector / 4 * ss) r.generator gb0 b.data).1 (by omega) (by omega)
    have hsep : ∀ a c : Nat, a < c →
        a * b.bytesPerSector + b.bytesPerSector ≤ c * b.bytesPerSector := by
      intro a c h
      have h2 : (a + 1) * b.bytesPerSector ≤ c * b.bytesPerSector :=
        Nat.mul_le_mul_right _ h
      rw [Nat.succ_mul] at h2
      omega
  · intro m hm t ht
    dsimp only
    rw [heB2]
    have hside : ∀ m2, m2 < n →
        sB + m * b.bytesPerSector + 8 + t ≠ sB + m2 * b.bytesPerSector + 20 ∧
        ¬(sB + m2 * b.bytesPerSector + 8 ≤ sB + m * b.bytesPerSector + 8 + t ∧
          sB + m * b.bytesPerSector + 8 + t < sB + m2 * b.bytesPerSector + 8 + 0) := by
      intro m2 hm2
      rcases Nat.lt_trichotomy m m2 with h | h | h
      · have := hsep m m2 h
        exact ⟨by omega, by omega⟩
      · subst h
        exact ⟨by omega, by omega⟩
      · have := hsep m2 m h
        exact ⟨by omega, by omega⟩
    rw [hcomp.2 (sB + m * b.bytesPerSector + 8 + t) hside]
    have hpos : sB + m * b.bytesPerSector + 8 + t
        = 4 * (b.bytesPerSector / 4 * (ss + m)) + 8 + t := by
      have e1 : 4 * (b.bytesPerSector / 4 * (ss + m))
          = 4 * (b.bytesPerSector / 4) * (ss + m) := by ring
      rw [e1, h4S, hsB]
      ring
    rw [hpos]
    exact hsect.1 m hm t ht
  · intro m hm
    dsimp only
    rw [heB2]
    rw [(hcomp.1 m hm).1, if_neg (fun hc => absurd hc.2 (by decide))]

/-- C1 counterexample: with pattern mode on, `Fill(5)` on a single
32-byte sector leaves the plain fill value 5 at sector offset
S - 1 = 31 (where the claim places the type/length byte), while the
type/length byte (0 << 4) | 1 = 1 actually lands at sector offset 20. -/
theorem C1_counterexample :
    ((mkBuf 1 32 true).Fill 5 0 0).map (fun b => (b.data 31, b.data 20))
      = Except.ok (5, 1) ∧ (5 : Nat) ≠ 1 :=
  ⟨rfl, by decide⟩

/-- C1 (amended): with pattern mode on, every pattern fill writes its
21-byte record at the START of each affected sector, not at its end:
the type/length byte `(type << 4) | len` sits at sector offset 20
(unless the zero-page rule suppresses it for a fixed pattern on a
zeroed range), the pattern copy occupies sector offsets [8, 8 + len)
and is copied from sector offsets [0, len), and for random fills the
PRNG state snapshot taken at each sector's start is written into
bytes [8, 20) of that sector, with the random type byte at offset 20. -/
theorem C1_record_layout (b : Buffer) (r : Random32) (ss cnt sB eB : Nat)
    (gb0 : Nat → Nat) (typ len : Nat)
    (hmode : b.usePatternMode = true)
    (hmod : b.bytesPerSector % 4 = 0)
    (hW : 7 ≤ b.bytesPerSector / 4)
    (hss : b.getStartStop ss cnt = Except.ok (sB, eB))
    (hlen : len ≤ 8)
    (htyp : typ = eFixPattern ∨ typ = eIncrementingPattern ∨ typ = eDecrementingPattern) :
    ∃ n, 1 ≤ n ∧ sB = ss * b.bytesPerSector ∧ eB = sB + n * b.bytesPerSector ∧
      (∀ d : Nat → Nat, ∀ m, m < n →
        (fillCompressionInfo b.bytesPerSector typ len sB eB d (sB + m * b.bytesPerSector + 20)
          = if d sB = 0 ∧ typ = eFixPattern then d (sB + m * b.bytesPerSector + 20)
            else ((typ <<< 4) ||| len) % 256) ∧
        (∀ k, k < len →
          fillCompressionInfo b.bytesPerSector typ len sB eB d (sB + m * b.bytesPerSector + 8 + k)
            = d (sB + m * b.bytesPerSector + k))) ∧
      (∃ b2 r2, b.FillSectorsWithRandomData r ss cnt gb0 = Except.ok (b2, r2) ∧
        (∀ m, m < n → ∀ t, t < 12 →
          b2.data (sB + m * b.bytesPerSector + 8 + t)
            = (Taus88.iterate r.generator (m * (b.bytesPerSector / 4))).stateByte t) ∧
        (∀ m, m < n → b2.data (sB + m * b.bytesPerSector + 20)
          = ((eRandomPattern <<< 4) ||| 0) % 256)) := by
  obtain ⟨n, b2, r2, hn1, hsB, heB2, heq, hsnap, htb⟩ :=
    FillSectors_pattern_spec b r ss cnt sB eB gb0 hmode hmod hW hss
  refine ⟨n, hn1, hsB, heB2, ?_, b2, r2, heq, hsnap, htb⟩
  intro d m hm
  have hcs := fillCompressionInfo_spec b.bytesPerSector typ len sB n d (by omega) hlen
  rw [heB2]
  exact ⟨(hcs.1 m hm).1, fun k hk => (hcs.1 m hm).2 htyp k hk⟩

/-- Witness for the amended C1: one 28-byte sector, pattern mode on,
fixed pattern of length 1, PRNG seeded to 7. -/
theorem C1_witness :
    ∃ n, 1 ≤ n ∧ (0 : Nat) = 0 * 28 ∧ (28 : Nat) = 0 + n * 28 ∧
      (∀ d : Nat → Nat, ∀ m, m < n →
        (fillCompressionInfo 28 eFixPattern 1 0 28 d (0 + m * 28 + 20)
          = if d 0 = 0 ∧ eFixPattern = eFixPattern then d (0 + m * 28 + 20)
            else ((eFixPattern <<< 4) ||| 1) % 256) ∧
        (∀ k, k < 1 →
          fillCompressionInfo 28 eFixPattern 1 0 28 d (0 + m * 28 + 8 + k)
            = d (0 + m * 28 + k))) ∧
      (∃ b2 r2, (mkBuf 1 28 true).FillSectorsWithRandomData (Random32.mkSeeded 7) 0 0 (fun _ => 0)
          = Except.ok (b2, r2) ∧
        (∀ m, m < n → ∀ t, t < 12 →
          b2.data (0 + m * 28 + 8 + t)
            = (Taus88.iterate (Random32.mkSeeded 7).generator (m * (28 / 4))).stateByte t) ∧
        (∀ m, m < n → b2.data (0 + m * 28 + 20)
          = ((eRandomPattern <<< 4) ||| 0) % 256)) :=
  C1_record_layout (mkBuf 1 28 true) (Random32.mkSeeded 7) 0 0 0 28 (fun _ => 0)
    eFixPattern 1 rfl (by decide) (by decide) rfl (by decide) (Or.inl rfl)

/-- The random word loop is insensitive to the initial payload: two runs
from the same generator and genBuffer agree wherever the initial payloads
agreed, and everywhere inside the filled word range. -/
theorem fillRandomWordsLoop_data_congr (mode : Bool) (S : Nat) :
    ∀ rem i g gb d1 d2, ∀ j,
      (d1 j = d2 j ∨ (4 * i ≤ j ∧ j < 4 * (i + rem))) →
      (fillRandomWordsLoop mode S rem i g gb d1).1 j
        = (fillRandomWordsLoop mode S rem i g gb d2).1 j := by
  intro rem
  induction rem with
  | zero =>
    intro i g gb d1 d2 j hj
    rcases hj with h | h
    · exact h
    · omega
  | succ rem ih =>
    intro i g gb d1 d2 j hj
    simp only [fillRandomWordsLoop]
    apply ih
    by_cases hw : 4 * i ≤ j ∧ j < 4 * i + 4
    · left
      unfold writeWordLE
      rw [if_pos hw, if_pos hw]
    · by_cases hrange : 4 * (i + 1) ≤ j ∧ j < 4 * (i + 1 + rem)
      · right
        exact hrange
      · left
        have hd : d1 j = d2 j := by
          rcases hj with h | h
          · exact h
          · omega
        unfold writeWordLE
        rw [if_neg hw, if_neg hw]
        by_cases hm6 : mode ∧ ¬i % (S / 4) = 0 ∧ i % (S / 4) = 6
        · rw [if_pos hm6, if_pos hm6]
          unfold writeGenBuffer
          by_cases hg : 4 * (i - 4) ≤ j ∧ j < 4 * (i - 4) + 12
          · rw [if_pos hg, if_pos hg]
          · rw [if_neg hg, if_neg hg, hd]
        · rw [if_neg hm6, if_neg hm6]
          exact hd

/-- The compression-record loop is a congruence on payloads that agree
below `endByte`, provided the write cursor starts at byte 20 or later. -/
theorem fillCompressionInfoLoop_congr (S typ len sB eB : Nat) (hsB : sB < eB) :
    ∀ fuel i d1 d2, 20 ≤ i → (∀ j, j < eB → d1 j = d2 j) →
      ∀ j, j < eB →
        fillCompressionInfoLoop S typ len sB eB fuel i d1 j
          = fillCompressionInfoLoop S typ len sB eB fuel i d2 j := by
  intro fuel
  induction fuel with
  | zero =>
    intro i d1 d2 h20 hd j hj
    exact hd j hj
  | succ fuel ih =>
    intro i d1 d2 h20 hd j hj
    simp only [fillCompressionInfoLoop]
    by_cases hi : i < eB
    · rw [if_pos hi, if_pos hi]
      refine ih (i + S) _ _ (by omega) ?_ j hj
      intro j2 hj2
      simp only [writeCompressionRecord]
      have hdsB : d1 sB = d2 sB := hd sB hsB
      rw [hdsB]
      have hdd : ∀ x, x < eB →
          (if ¬(d2 sB = 0 ∧ typ = eFixPattern) then
            (fun j3 => if j3 = i then ((typ <<< 4) ||| len) % 256 else d1 j3) else d1) x
          = (if ¬(d2 sB = 0 ∧ typ = eFixPattern) then
            (fun j3 => if j3 = i then ((typ <<< 4) ||| len) % 256 else d2 j3) else d2) x := by
        intro x hx
        by_cases hc : ¬(d2 sB = 0 ∧ typ = eFixPattern)
        · rw [if_pos hc, if_pos hc]
          by_cases hxi : x = i
          · rw [if_pos hxi, if_pos hxi]
          · rw [if_neg hxi, if_neg hxi, hd x hx]
        · rw [if_neg hc, if_neg hc]
          exact hd x hx
      by_cases htm : typ = eFixPattern ∨ typ = eIncrementingPattern ∨ typ = eDecrementingPattern
      · rw [if_pos htm, if_pos htm]
        unfold memcpyF
        by_cases hr : i - COMPRESSION_PATTERN_SIZE_IN_BYTE ≤ j2 ∧
            j2 < i - COMPRESSION_PATTERN_SIZE_IN_BYTE + len
        · rw [if_pos hr, if_pos hr]
          apply hdd
          simp only [COMPRESSION_PATTERN_SIZE_IN_BYTE, COMPRESSION_LBA_SIZE_IN_BYTE] at hr ⊢
          omega
        · rw [if_neg hr, if_neg hr]
          exact hdd j2 hj2
      · rw [if_neg htm, if_neg htm]
        exact hdd j2 hj2
    · rw [if_neg hi, if_neg hi]
      exact hd j hj

/-- `FillCompressionInfo` is a congruence on payloads that agree below
`endByte`. -/
theorem fillCompressionInfo_congr (S typ len sB eB : Nat) (hsB : sB < eB)
    (d1 d2 : Nat → Nat) (hd : ∀ j, j < eB → d1 j = d2 j) :
    ∀ j, j < eB → fillCompressionInfo S typ len sB eB d1 j
      = fillCompressionInfo S typ len sB eB d2 j := by
  intro j hj
  unfold fillCompressionInfo
  by_cases hl : len > COMPRESSION_MAX_PATTERN_LEN
  · rw [if_pos hl, if_pos hl]
    exact hd j hj
  · rw [if_neg hl, if_neg hl]
    exact fillCompressionInfoLoop_congr S typ len sB eB hsB eB
      (sB + COMPRESSION_LBA_SIZE_IN_BYTE + COMPRESSION_PATTERN_SIZE_IN_BYTE) d1 d2
      (by simp only [COMPRESSION_LBA_SIZE_IN_BYTE, COMPRESSION_PATTERN_SIZE_IN_BYTE]; omega)
      hd j hj

/-- Two buffers of the same shape and pattern-mode flag, filled over
their full range from the same PRNG and stack contents, end up with
byte-identical payloads over the whole buffer. -/
theorem FillSectors_deterministic (b1 b2 : Buffer) (r : Random32) (gb0 : Nat → Nat)
    (hsc : b2.sectorCount = b1.sectorCount)
    (hbps : b2.bytesPerSector = b1.bytesPerSector)
    (hmode : b2.usePatternMode = b1.usePatternMode)
    (hsc1 : 1 ≤ b1.sectorCount)
    (hS4 : 4 ≤ b1.bytesPerSector)
    (hmod : b1.bytesPerSector % 4 = 0) :
    ∃ c1 r1 c2 r2,
      b1.FillSectorsWithRandomData r 0 0 gb0 = Except.ok (c1, r1) ∧
      b2.FillSectorsWithRandomData r 0 0 gb0 = Except.ok (c2, r2) ∧
      ∀ j, j < b1.sectorCount * b1.bytesPerSector → c1.data j = c2.data j := by
  have hsc2 : 1 ≤ b2.sectorCount := by omega
  have hT4 : (4 : Nat) ∣ b1.sectorCount * b1.bytesPerSector :=
    Dvd.dvd.mul_left (Nat.dvd_of_mod_eq_zero hmod) _
  have heq1 : b1.FillSectorsWithRandomData r 0 0 gb0
      = Except.ok
        ({ b1 with data := if b1.usePatternMode then fillCompressionInfo b1.bytesPerSector eRandomPattern 0 0 (b1.sectorCount * b1.bytesPerSector) (fillRandomWordsLoop b1.usePatternMode b1.bytesPerSector (b1.sectorCount * b1.bytesPerSector / 4 - 0 / 4) (0 / 4) r.generator gb0 b1.data).1 else (fillRandomWordsLoop b1.usePatternMode b1.bytesPerSector (b1.sectorCount * b1.bytesPerSector / 4 - 0 / 4) (0 / 4) r.generator gb0 b1.data).1 },
         { r with generator := (fillRandomWordsLoop b1.usePatternMode b1.bytesPerSector (b1.sectorCount * b1.bytesPerSector / 4 - 0 / 4) (0 / 4) r.generator gb0 b1.data).2.1 }) := by
    unfold Buffer.FillSectorsWithRandomData
    rw [bind_ok_elim (getStartStop_full b1 hsc1)]
    rfl
  have heq2 : b2.FillSectorsWithRandomData r 0 0 gb0
      = Except.ok
        ({ b2 with data := if b2.usePatternMode then fillCompressionInfo b2.bytesPerSector eRandomPattern 0 0 (b2.sectorCount * b2.bytesPerSector) (fillRandomWordsLoop b2.usePatternMode b2.bytesPerSector (b2.sectorCount * b2.bytesPerSector / 4 - 0 / 4) (0 / 4) r.generator gb0 b2.data).1 else (fillRandomWordsLoop b2.usePatternMode b2.bytesPerSector (b2.sectorCount * b2.bytesPerSector / 4 - 0 / 4) (0 / 4) r.generator gb0 b2.data).1 },
         { r with generator := (fillRandomWordsLoop b2.usePatternMode b2.bytesPerSector (b2.sectorCount * b2.bytesPerSector / 4 - 0 / 4) (0 / 4) r.generator gb0 b2.data).2.1 }) := by
    unfold Buffer.FillSectorsWithRandomData
    rw [bind_ok_elim (getStartStop_full b2 hsc2)]
    rfl
  refine ⟨_, _, _, _, heq1, heq2, ?_⟩
  intro j hj
  dsimp only
  rw [hsc, hbps, hmode]
  have hword : ∀ x, x < b1.sectorCount * b1.bytesPerSector →
      (fillRandomWordsLoop b1.usePatternMode b1.bytesPerSector
        (b1.sectorCount * b1.bytesPerSector / 4 - 0 / 4) (0 / 4)
        r.generator gb0 b1.data).1 x
      = (fillRandomWordsLoop b1.usePatternMode b1.bytesPerSector
        (b1.sectorCount * b1.bytesPerSector / 4 - 0 / 4) (0 / 4)
        r.generator gb0 b2.data).1 x := by
    intro x hx
    apply fillRandomWordsLoop_data_congr
    right
    have h44 : 4 * (b1.sectorCount * b1.bytesPerSector / 4)
        = b1.sectorCount * b1.bytesPerSector := Nat.mul_div_cancel' hT4
    constructor
    · omega
    · omega
  by_cases hm : b1.usePatternMode = true
  · rw [if_pos hm, if_pos hm]
    exact fillCompressionInfo_congr b1.bytesPerSector eRandomPattern 0 0
      (b1.sectorCount * b1.bytesPerSector)
      (Nat.mul_pos (by omega) (by omega)) _ _ hword j hj
  · rw [if_neg hm, if_neg hm]
    exact hword j hj

/-- Seeded fills are deterministic: two buffers of the same shape and
pattern-mode flag, filled over their whole range with
`FillRandomSeeded(seed)` (same stack contents), get byte-identical
payloads, and `CompareTo` then reports them equal. -/
theorem FillRandomSeeded_deterministic (b1 b2 : Buffer) (seed : Nat) (gb0 : Nat → Nat)
    (hsc : b2.sectorCount = b1.sectorCount)
    (hbps : b2.bytesPerSector = b1.bytesPerSector)
    (hmode : b2.usePatternMode = b1.usePatternMode)
    (hsc1 : 1 ≤ b1.sectorCount)
    (hS4 : 4 ≤ b1.bytesPerSector)
    (hmod : b1.bytesPerSector % 4 = 0) :
    ∃ c1 c2,
      b1.FillRandomSeeded seed 0 0 gb0 = Except.ok c1 ∧
      b2.FillRandomSeeded seed 0 0 gb0 = Except.ok c2 ∧
      (∀ j, j < b1.sectorCount * b1.bytesPerSector → c1.data j = c2.data j) ∧
      c1.CompareTo c2 0 0 0 = Except.ok CompareResult.mkEqual := by
  obtain ⟨c1, r1, c2, r2, h1, h2, hdata⟩ :=
    FillSectors_deterministic { b1 with random := some (Random32.mkSeeded seed) }
      { b2 with random := some (Random32.mkSeeded seed) } (Random32.mkSeeded seed) gb0
      hsc hbps hmode hsc1 hS4 hmod
  have he1 : b1.FillRandomSeeded seed 0 0 gb0 = Except.ok { c1 with random := some r1 } := by
    unfold Buffer.FillRandomSeeded Buffer.FillRandomImpl
    rw [if_neg (by omega)]
    rw [GetRandom_true]
    dsimp only
    rw [bind_ok_elim h1]
    rfl
  have he2 : b2.FillRandomSeeded seed 0 0 gb0 = Except.ok { c2 with random := some r2 } := by
    unfold Buffer.FillRandomSeeded Buffer.FillRandomImpl
    rw [if_neg (by omega)]
    rw [GetRandom_true]
    dsimp only
    rw [bind_ok_elim h2]
    rfl
  obtain ⟨hn1, hb1, hc1, _, _⟩ := FillSectors_ok_shape _ _ _ _ _ _ _ h1
  obtain ⟨hn2, hb2, hc2, _, _⟩ := FillSectors_ok_shape _ _ _ _ _ _ _ h2
  have hT1 : ({ c1 with random := some r1 } : Buffer).getStartStop 0 0
      = Except.ok (0, c1.sectorCount * c1.bytesPerSector) :=
    getStartStop_full _ (by
      show 1 ≤ c1.sectorCount
      rw [hc1]
      exact hsc1)
  have hT2 : ({ c2 with random := some r2 } : Buffer).getStartStop 0 0
      = Except.ok (0, c2.sectorCount * c2.bytesPerSector) :=
    getStartStop_full _ (by
      show 1 ≤ c2.sectorCount
      rw [hc2]
      show 1 ≤ b2.sectorCount
      omega)
  have hTeq1 : c1.sectorCount * c1.bytesPerSector
      = b1.sectorCount * b1.bytesPerSector := by
    rw [hc1, hb1]
  have hTeq2 : c2.sectorCount * c2.bytesPerSector
      = b1.sectorCount * b1.bytesPerSector := by
    rw [hc2, hb2]
    show b2.sectorCount * b2.bytesPerSector = _
    rw [hsc, hbps]
  have hcmp : ({ c1 with random := some r1 } : Buffer).CompareTo
      { c2 with random := some r2 } 0 0 0 = Except.ok CompareResult.mkEqual := by
    unfold Buffer.CompareTo
    rw [bind_ok_elim hT1]
    dsimp only
    rw [bind_ok_elim hT2]
    dsimp only
    rw [if_pos rfl]
    rw [bind_ok_elim (pure_eq_ok _)]
    have hnone : findFirstDiff c1.data c2.data 0 0
        (min (c1.sectorCount * c1.bytesPerSector - 0)
          (c2.sectorCount * c2.bytesPerSector - 0)) = none := by
      unfold findFirstDiff
      rw [(findFirstDiffAux_none_iff c1.data c2.data 0 0 _ 0)]
      intro j _ hj
      rw [Nat.zero_add] at hj
      have hjA : j < c1.sectorCount * c1.bytesPerSector - 0 :=
        Nat.lt_of_lt_of_le hj (Nat.min_le_left _ _)
      have hgoal : j < b1.sectorCount * b1.bytesPerSector := by omega
      rw [Nat.zero_add]
      exact hdata j hgoal
    rw [hnone]
    rfl
  exact ⟨{ c1 with random := some r1 }, { c2 with random := some r2 },
    he1, he2, hdata, hcmp⟩

/-- C4 counterexample: reseeding with a DIFFERENT seed does not always
change the contents. Seeds 12344 and 12345 drive taus88 through
identical sequences (the seeding procedure only feeds the seed into
state bits whose low bits the output function discards), so two
one-sector buffers seeded with them compare equal. -/
theorem C4_counterexample :
    ((mkBuf 1 4 false).FillRandomSeeded 12344 0 0 (fun _ => 0)).bind (fun c1 =>
      ((mkBuf 1 4 false).FillRandomSeeded 12345 0 0 (fun _ => 0)).bind (fun c2 =>
        (c1.CompareTo c2 0 0 0).map (fun r => r.areEqual)))
      = Except.ok true ∧ (12344 : Nat) ≠ 12345 :=
  ⟨rfl, by decide⟩

set_option maxRecDepth 400000

/-- C4 (amended): seeded random fills are deterministic — two buffers of
the same shape and pattern-mode flag, filled over their whole range with
the same seed (and the same uninitialized stack contents), get
byte-identical payloads and CompareTo reports them equal; and the spec's
concrete scenario with two different seeds (12345 vs 54321 on a 5 x 512
buffer) does produce unequal contents. (A different seed does NOT
guarantee different contents in general; see the counterexample.) -/
theorem C4_seeded_determinism (b1 b2 : Buffer) (seed : Nat) (gb0 : Nat → Nat)
    (hsc : b2.sectorCount = b1.sectorCount)
    (hbps : b2.bytesPerSector = b1.bytesPerSector)
    (hmode : b2.usePatternMode = b1.usePatternMode)
    (hsc1 : 1 ≤ b1.sectorCount)
    (hS4 : 4 ≤ b1.bytesPerSector)
    (hmod : b1.bytesPerSector % 4 = 0) :
    (∃ c1 c2,
      b1.FillRandomSeeded seed 0 0 gb0 = Except.ok c1 ∧
      b2.FillRandomSeeded seed 0 0 gb0 = Except.ok c2 ∧
      (∀ j, j < b1.sectorCount * b1.bytesPerSector → c1.data j = c2.data j) ∧
      c1.CompareTo c2 0 0 0 = Except.ok CompareResult.mkEqual) ∧
    ((mkBuf 5 512 false).FillRandomSeeded 12345 0 0 (fun _ => 0)).bind (fun c1 =>
      ((mkBuf 5 512 false).FillRandomSeeded 54321 0 0 (fun _ => 0)).bind (fun c2 =>
        (c1.CompareTo c2 0 0 0).map (fun r => r.areEqual)))
      = Except.ok false :=
  ⟨FillRandomSeeded_deterministic b1 b2 seed gb0 hsc hbps hmode hsc1 hS4 hmod, by rfl⟩

/-- Witness for the amended C4: two 2 x 8 buffers with different initial
payloads, both seeded to 99. -/
theorem C4_witness :
    (∃ c1 c2,
      (mkBuf 2 8 false).FillRandomSeeded 99 0 0 (fun _ => 0) = Except.ok c1 ∧
      ({ mkBuf 2 8 false with data := fun _ => 255 } : Buffer).FillRandomSeeded 99 0 0
          (fun _ => 0) = Except.ok c2 ∧
      (∀ j, j < (mkBuf 2 8 false).sectorCount * (mkBuf 2 8 false).bytesPerSector →
        c1.data j = c2.data j) ∧
      c1.CompareTo c2 0 0 0 = Except.ok CompareResult.mkEqual) ∧
    ((mkBuf 5 512 false).FillRandomSeeded 12345 0 0 (fun _ => 0)).bind (fun c1 =>
      ((mkBuf 5 512 false).FillRandomSeeded 54321 0 0 (fun _ => 0)).bind (fun c2 =>
        (c1.CompareTo c2 0 0 0).map (fun r => r.areEqual)))
      = Except.ok false :=
  C4_seeded_determinism (mkBuf 2 8 false) { mkBuf 2 8 false with data := fun _ => 255 }
    99 (fun _ => 0) rfl rfl rfl (by decide) (by decide) (by decide)
